import Mathlib

/-!
Verification of the Sokoban level generator (`env/env_utils.py`).

The generator is embedded shallowly.  A grid is a list of rows of cell
codes (0 wall, 1 floor, 2 box target, 3 and 4 box, 5 player), mirroring the
integer matrices of the source.  The Python PRNG (`random` and `np.random`,
both seeded together by `all_seed`) is an explicit stream of draws, so every
embedded function is a pure function of its arguments and the stream.  The
time-to-live of the depth-first search is a natural number used as
structural fuel: the source decrements an integer `ttl` and returns when it
is `<= 0`, which for the non-negative budgets passed by every caller is
exactly the fuel behaviour below.
-/

namespace Sokoban

/-- A cell position.  Coordinates are integers because the source adds
`CHANGE_COORDINATES` deltas, which can step to `-1` (numpy wraps such an
index to the last row/column, which the walled border makes irrelevant). -/
abbrev Pos := Int × Int

abbrev Grid := List (List Nat)

/-- `box_mapping`: an insertion-ordered association list from each box
target (its home) to the box's current coordinate, as the Python dict. -/
abbrev Mapping := List (Pos × Pos)

/-- numpy-style index: an in-range non-negative index is itself; a negative
index within range wraps from the end, as numpy indexing does. -/
def npIdx (n : Nat) (i : Int) : Nat := (i % (n : Int)).toNat

def getCell (g : Grid) (p : Pos) : Nat :=
  let row := g.getD (npIdx g.length p.1) []
  row.getD (npIdx row.length p.2) 0

def setCell (g : Grid) (p : Pos) (v : Nat) : Grid :=
  let i := npIdx g.length p.1
  let row := g.getD i []
  g.set i (row.set (npIdx row.length p.2) v)

def mapGrid (g : Grid) (f : Nat → Nat) : Grid := g.map (List.map f)

/-- All cell values of a grid, row-major (used for value-range facts). -/
def cellValues (g : Grid) : List Nat := g.flatten

/-- Number of cells holding value `v` (`np.where(g == v)[0].shape[0]`). -/
def countVal (g : Grid) (v : Nat) : Nat := (g.map fun row => row.count v).sum

/-- The positions of the cells of one row holding value `v`, scanning the
row left to right with `j` the index of its first cell. -/
def coordsRowAux (i v : Nat) : Nat → List Nat → List Pos
  | _, [] => []
  | j, c :: rest =>
    (if c = v then [((i : Int), (j : Int))] else []) ++ coordsRowAux i v (j + 1) rest

/-- Row-major list of the positions holding value `v` (`np.where(g == v)`),
in the exact order numpy reports them; `i` is the index of the first row. -/
def coordsOfAux (v : Nat) : Nat → Grid → List Pos
  | _, [] => []
  | i, row :: rest => coordsRowAux i v 0 row ++ coordsOfAux v (i + 1) rest

def coordsOf (g : Grid) (v : Nat) : List Pos := coordsOfAux v 0 g

/-- The first player cell in row-major order
(`np.where(room_state == 5)` followed by taking index 0). -/
def findPlayer (g : Grid) : Option Pos := (coordsOf g 5).head?

/-- `CHANGE_COORDINATES`: 0 up, 1 down, 2 left, 3 right. -/
def changeCoordinates : Nat → Pos
  | 0 => (-1, 0)
  | 1 => (1, 0)
  | 2 => (0, -1)
  | _ => (0, 1)

/-- Sum over the mapping of the Manhattan distance between each box and its
home target (`box_displacement_score`). -/
def box_displacement_score (m : Mapping) : Nat :=
  (m.map fun kv => (kv.2.1 - kv.1.1).natAbs + (kv.2.2 - kv.1.2).natAbs).sum

/-! ## The pseudo-random stream

`random.seed` / `np.random.seed` make every draw a deterministic function
of the seed; the embedding exposes that function's source of draws as two
streams, one of naturals (index draws, reduced modulo the requested bound)
and one of rationals (`random.random()` draws, compared against the
probability parameters). -/

structure RNG where
  ints : List Nat
  rats : List ℚ
deriving DecidableEq

/-- Draw an index below `n` (`np.random.randint(n)`, `random.choice`,
`random.sample(xs, 1)[0]`). -/
def drawNat (g : RNG) (n : Nat) : Nat × RNG :=
  ((g.ints.headD 0) % n, ⟨g.ints.tail, g.rats⟩)

/-- Draw a `random.random()` value. -/
def drawQ (g : RNG) : ℚ × RNG :=
  (g.rats.headD 0, ⟨g.ints, g.rats.tail⟩)

/-! ## Topology generation (`room_topology_generation`) -/

/-- The five 3×3 prefab floor masks. -/
def masks : List (List (List Nat)) :=
  [[[0, 0, 0], [1, 1, 1], [0, 0, 0]],
   [[0, 1, 0], [0, 1, 0], [0, 1, 0]],
   [[0, 0, 0], [1, 1, 0], [0, 1, 0]],
   [[0, 0, 0], [1, 1, 0], [1, 1, 0]],
   [[0, 0, 0], [0, 1, 1], [0, 1, 0]]]

/-- The possible walk directions, in source order. -/
def walkDirections : List Pos := [(1, 0), (0, 1), (-1, 0), (0, -1)]

/-- `level[mask_start_x : mask_start_x+3, mask_start_y : mask_start_y+3] += mask`. -/
def applyMask (level : Grid) (a b : Int) (mask : List (List Nat)) : Grid :=
  level.mapIdx fun i row => row.mapIdx fun j v =>
    if a ≤ (i : Int) ∧ (i : Int) < a + 3 ∧ b ≤ (j : Int) ∧ (j : Int) < b + 3 then
      v + ((mask.getD ((i : Int) - a).toNat []).getD ((j : Int) - b).toNat 0)
    else v

/-- Clamp a walk position one cell inside the border
(`max(min(position, dim - 2), 1)` on each coordinate). -/
def clampPos (dim : Nat × Nat) (p : Pos) : Pos :=
  (max (min p.1 ((dim.1 : Int) - 2)) 1, max (min p.2 ((dim.2 : Int) - 2)) 1)

structure TopoState where
  direction : Pos
  position : Pos
  level : Grid

/-- One step of the random walk: maybe change direction, move and clamp,
stamp a random mask centred on the new position. -/
def topoStep (dim : Nat × Nat) (pChange : ℚ) (st : TopoState) (g : RNG) :
    TopoState × RNG :=
  let dq := drawQ g
  let dd :=
    if dq.1 < pChange then
      let di := drawNat dq.2 walkDirections.length
      (walkDirections.getD di.1 (1, 0), di.2)
    else (st.direction, dq.2)
  let pos := clampPos dim (st.position.1 + dd.1.1, st.position.2 + dd.1.2)
  let dm := drawNat dd.2 masks.length
  let mask := masks.getD dm.1 []
  (⟨dd.1, pos, applyMask st.level (pos.1 - 1) (pos.2 - 1) mask⟩, dm.2)

def topoWalk (dim : Nat × Nat) (pChange : ℚ) :
    Nat → TopoState → RNG → TopoState × RNG
  | 0, st, g => (st, g)
  | n + 1, st, g =>
    let r := topoStep dim pChange st g
    topoWalk dim pChange n r.1 r.2

/-- `room_topology_generation`: seeded random walk stamping prefab masks,
then threshold accumulated cells to floor and wall the outer ring. -/
def room_topology_generation (dim : Nat × Nat) (pChange : ℚ) (numSteps : Nat)
    (g : RNG) : Grid × RNG :=
  let d0 := drawNat g walkDirections.length
  let dir := walkDirections.getD d0.1 (1, 0)
  let dx := drawNat d0.2 (dim.1 - 1)
  let dy := drawNat dx.2 (dim.2 - 1)
  let pos : Pos := (1 + (dx.1 : Int), 1 + (dy.1 : Int))
  let level : Grid := List.replicate dim.1 (List.replicate dim.2 0)
  let w := topoWalk dim pChange numSteps ⟨dir, pos, level⟩ dy.2
  let lvl := mapGrid w.1.level fun v => if 0 < v then 1 else v
  let lvl2 := lvl.mapIdx fun i row => row.mapIdx fun j v =>
    if i = 0 ∨ i = dim.1 - 1 ∨ j = 0 ∨ j = dim.2 - 1 then 0 else v
  (lvl2, w.2)

/-! ## Entity placement (`place_boxes_and_player`) -/

inductive GenError where
  | placementCapacity (spots players boxes : Nat)
  | degenerateScore
deriving DecidableEq

/-- The box-placement loop: each box recomputes the floor cells and turns a
randomly chosen one into a box target (code 2). -/
def place_boxes_loop : Nat → Grid → RNG → Grid × RNG
  | 0, room, g => (room, g)
  | n + 1, room, g =>
    let poss := coordsOf room 1
    let d := drawNat g poss.length
    place_boxes_loop n (setCell room (poss.getD d.1 (0, 0)) 2) d.2

/-- `place_boxes_and_player`.  Note that when a second player is requested
the source draws its index from the floor list computed *before* the first
player was placed, so the two draws can coincide. -/
def place_boxes_and_player (room : Grid) (numBoxes : Nat)
    (secondPlayer : Bool) (g : RNG) : Except GenError Grid × RNG :=
  let poss := coordsOf room 1
  let n := poss.length
  let numPlayers := if secondPlayer then 2 else 1
  if n ≤ numBoxes + numPlayers then
    (.error (.placementCapacity n numPlayers numBoxes), g)
  else
    let d1 := drawNat g n
    let room1 := setCell room (poss.getD d1.1 (0, 0)) 5
    let r2 :=
      if secondPlayer then
        let d2 := drawNat d1.2 n
        (setCell room1 (poss.getD d2.1 (0, 0)) 5, d2.2)
      else (room1, d1.2)
    let fin := place_boxes_loop numBoxes r2.1 r2.2
    (.ok fin.1, fin.2)

/-! ## Reverse moves and the depth-first search -/

/-- The dict-update loop of `reverse_move`: every key whose value is the
box's old location is repointed at the player's previous position, and
`last_pull` becomes the last such key in iteration order. -/
def updateMapping (m : Mapping) (oldLoc newLoc lp : Pos) : Mapping × Pos :=
  (m.map fun kv => if kv.2 = oldLoc then (kv.1, newLoc) else kv,
   m.foldl (fun acc kv => if kv.2 = oldLoc then kv.1 else acc) lp)

/-- `reverse_move`: move the player one cell if the destination is a floor
or empty target, and pull the box behind it (if any) onto the vacated
cell.  Call sites always pass grids with a player cell, so the `none`
branch of `findPlayer` is never taken there. -/
def reverse_move (room_state room_structure : Grid) (box_mapping : Mapping)
    (last_pull : Pos) (action : Nat) : Grid × Mapping × Pos :=
  match findPlayer room_state with
  | none => (room_state, box_mapping, last_pull)
  | some p =>
    let c := changeCoordinates (action % 4)
    let np : Pos := (p.1 + c.1, p.2 + c.2)
    if getCell room_state np = 1 ∨ getCell room_state np = 2 then
      let s1 := setCell room_state p (getCell room_structure p)
      let s2 := setCell s1 np 5
      if action < 4 then
        let bp : Pos := (p.1 - c.1, p.2 - c.2)
        if getCell s2 bp = 3 ∨ getCell s2 bp = 4 then
          let s3 := setCell s2 p 3
          let s4 := setCell s3 bp (getCell room_structure bp)
          let um := updateMapping box_mapping bp p last_pull
          (s4, um.1, um.2)
        else (s2, box_mapping, last_pull)
      else (s2, box_mapping, last_pull)
    else (room_state, box_mapping, last_pull)

/-- One record per state expanded by the search: the state, the mapping,
the swap count, the score the source computes for it at lines 258-260, and
the reverse-move sequence that reached it. -/
structure Visit where
  state : Grid
  mapping : Mapping
  swaps : Nat
  score : Int
  acts : List Nat
deriving DecidableEq

/-- The module-level search accumulator (`_explored_states`,
`_best_room_score`, `_best_room`, `_best_box_mapping`,
`_best_action_sequence`, `_num_boxes`), threaded explicitly, plus a log of
the visited (expanded) states for stating search-wide properties.  The
explored set is kept as a duplicate-free list, whose length is the set's
cardinality. -/
structure SearchCtx where
  explored : List Grid
  bestScore : Int
  bestRoom : Grid
  bestMapping : Mapping
  bestActions : List Nat
  numBoxes : Nat
  visits : List Visit
deriving DecidableEq

/-- Lines 256-268 of the source: score the freshly expanded state, install
it as the best result when its score strictly exceeds the running best,
and add its fingerprint to the explored set (recording the visit). -/
def visitCtx (ctx : SearchCtx) (s : Grid) (m : Mapping) (sw : Nat)
    (acts : List Nat) : SearchCtx :=
  let score : Int :=
    if countVal s 2 ≠ ctx.numBoxes then 0
    else (sw * box_displacement_score m : Nat)
  let ctx1 :=
    if ctx.bestScore < score then
      { ctx with bestRoom := s, bestScore := score,
                 bestMapping := m, bestActions := acts }
    else ctx
  { ctx1 with explored := s :: ctx1.explored,
              visits := ctx1.visits ++ [⟨s, m, sw, score, acts⟩] }

/-- `depth_first_search`.  The fuel argument is the source's `ttl`; the
source decrements it on entry and returns when it is `<= 0` or the
explored set has reached 300000 fingerprints, then tries the four pull
actions (actions 4-7 are skipped by the `action >= 4` guard) in order. -/
def depth_first_search (room_structure : Grid) :
    Nat → Grid → Mapping → Nat → Pos → List Nat → SearchCtx → SearchCtx
  | 0, _, _, _, _, _, ctx => ctx
  | ttl + 1, room_state, box_mapping, box_swaps, last_pull, action_sequence, ctx =>
    if ttl = 0 ∨ 300000 ≤ ctx.explored.length then ctx
    else if room_state ∈ ctx.explored then ctx
    else
      let ctx2 := visitCtx ctx room_state box_mapping box_swaps action_sequence
      let child := fun (c : SearchCtx) (a : Nat) =>
        let r := reverse_move room_state room_structure box_mapping last_pull a
        let sw := if r.2.2 ≠ last_pull then box_swaps + 1 else box_swaps
        depth_first_search room_structure ttl r.1 r.2.1 sw r.2.2
          (action_sequence ++ [a]) c
      child (child (child (child ctx2 0) 1) 2) 3

/-- `reverse_playing`, exposing the whole final search context. -/
def reverse_playingCtx (room_state room_structure : Grid)
    (search_depth : Nat) : SearchCtx :=
  let targets := coordsOf room_structure 2
  let box_mapping : Mapping := targets.map fun t => (t, t)
  let ctx : SearchCtx :=
    ⟨[], -1, room_state, box_mapping, [], targets.length, []⟩
  depth_first_search room_structure search_depth room_state box_mapping 0
    (-1, -1) [] ctx

/-- `reverse_playing`: the best room, mapping and action sequence found. -/
def reverse_playing (room_state room_structure : Grid) (search_depth : Nat) :
    Grid × Mapping × List Nat :=
  let ctx := reverse_playingCtx room_state room_structure search_depth
  (ctx.bestRoom, ctx.bestMapping, ctx.bestActions)

/-! ## Post-generation player randomization (`add_random_player_movement`) -/

/-- The valid moves from `pos`: the four directions whose destination is a
floor or empty-target cell not previously visited in this pass. -/
def validMovesFrom (room_state : Grid) (pos : Pos) (previous : List Pos) :
    List (Nat × Pos) :=
  [0, 1, 2, 3].filterMap fun a =>
    let c := changeCoordinates a
    let np : Pos := (pos.1 + c.1, pos.2 + c.2)
    if (getCell room_state np = 1 ∨ getCell room_state np = 2) ∧ np ∉ previous
    then some (a, np) else none

/-- The 1-to-`max_steps` random walk of the player; the fuel is the number
of steps still allowed.  After a step, when steps remain, the walk
continues only while the continue draw is `<= continue_probability`. -/
def movePlayerLoop (room_structure : Grid) (contProb : ℚ) :
    Nat → Grid → Pos → List Pos → RNG → Grid × RNG
  | 0, room_state, _, _, g => (room_state, g)
  | fuel + 1, room_state, pos, previous, g =>
    let valid := validMovesFrom room_state pos previous
    if valid.length = 0 then (room_state, g)
    else
      let d := drawNat g valid.length
      let np := (valid.getD d.1 (0, pos)).2
      let s2 := setCell (setCell room_state pos (getCell room_structure pos)) np 5
      if fuel = 0 then (s2, d.2)
      else
        let dq := drawQ d.2
        if contProb < dq.1 then (s2, dq.2)
        else movePlayerLoop room_structure contProb fuel s2 np (previous ++ [np]) dq.2

/-- `add_random_player_movement`: with probability `move_probability`
perturb the player by 1-`max_steps` box-free moves.  Call sites always
pass grids with a player cell, so the `none` branch is never taken
there. -/
def add_random_player_movement (room_state room_structure : Grid)
    (move_probability continue_probability : ℚ) (max_steps : Nat) (g : RNG) :
    Grid × RNG :=
  let dq := drawQ g
  if move_probability < dq.1 then (room_state, dq.2)
  else
    match findPlayer room_state with
    | none => (room_state, dq.2)
    | some p =>
      movePlayerLoop room_structure continue_probability max_steps room_state
        p [p] dq.2

/-! ## `generate_room`: the acceptance loop and final assembly -/

structure LevelData where
  room_structure : Grid
  room_state : Grid
  box_mapping : Mapping
  action_sequence : List Nat
deriving DecidableEq

/-- One attempt of the acceptance loop: topology, placement, the two
derived grids (`room_structure` with players reduced to floor,
`room_state` with targets recoded as boxes sitting on them), the reverse
playing search, and the final `3 -> 4` recode of the best room. -/
def attemptOnce (dim : Nat × Nat) (pChange : ℚ) (numSteps numBoxes : Nat)
    (secondPlayer : Bool) (searchDepth : Nat) (g : RNG) :
    Except GenError LevelData × RNG :=
  let topo := room_topology_generation dim pChange numSteps g
  let pl := place_boxes_and_player topo.1 numBoxes secondPlayer topo.2
  match pl.1 with
  | .error e => (.error e, pl.2)
  | .ok room =>
    let rs := mapGrid room fun v => if v = 5 then 1 else v
    let st0 := mapGrid room fun v => if v = 2 then 4 else v
    let rp := reverse_playing st0 rs searchDepth
    let st1 := mapGrid rp.1 fun v => if v = 3 then 4 else v
    (.ok ⟨rs, st1, rp.2.1, rp.2.2⟩, pl.2)

/-- The `for t in range(tries)` loop with its acceptance test and the
post-loop degenerate check: an attempt with positive displacement score is
accepted immediately; a placement error propagates; when the last attempt
still scores zero the degenerate-generation error is raised.  (The source
is never called with `tries = 0`; that case is mapped to the degenerate
error.) -/
def attemptLoop (dim : Nat × Nat) (pChange : ℚ) (numSteps numBoxes : Nat)
    (secondPlayer : Bool) (searchDepth : Nat) :
    Nat → RNG → Except GenError LevelData × RNG
  | 0, g => (.error .degenerateScore, g)
  | t + 1, g =>
    let a1 := attemptOnce dim pChange numSteps numBoxes secondPlayer searchDepth g
    match a1.1 with
    | .error e => (.error e, a1.2)
    | .ok L =>
      if 0 < box_displacement_score L.box_mapping then (.ok L, a1.2)
      else attemptLoop dim pChange numSteps numBoxes secondPlayer searchDepth t a1.2

/-- The move probability chosen for the accepted level (lines 70-73). -/
def moveProbability (m : Mapping) : ℚ :=
  if box_displacement_score m = 1 then mkRat 4 5 else mkRat 1 2

/-- `generate_room`. -/
def generate_room (dim : Nat × Nat) (pChange : ℚ) (numSteps numBoxes tries : Nat)
    (secondPlayer : Bool) (searchDepth : Nat) (g : RNG) :
    Except GenError LevelData × RNG :=
  let r := attemptLoop dim pChange numSteps numBoxes secondPlayer searchDepth tries g
  match r.1 with
  | .error e => (.error e, r.2)
  | .ok L =>
    let ar := add_random_player_movement L.room_state L.room_structure
      (moveProbability L.box_mapping) (mkRat 1 2) 3 r.2
    (.ok { L with room_state := ar.1 }, ar.2)

/-! ## The abstract (position-level) view used for solvability

The forward gameplay (pushing) is not part of this repository's core; the
spec places it outside the generator and describes a pull as the reverse
analogue of a forward push.  Solvability is therefore stated on the
position-level abstraction of a state grid: the player position and the
set of box positions. -/

structure AbsState where
  player : Pos
  boxes : Finset Pos
deriving DecidableEq

/-- The forward push undoing a given reverse pull direction: pulling up is
undone by pushing down, and so on. -/
def invertAct : Nat → Nat
  | 0 => 1
  | 1 => 0
  | 2 => 3
  | _ => 2

/-- Modelled from the spec: the forward push (the repository's forward
stepping lives in the external gym dependency; the spec's glossary defines
a pull move as the reverse-direction analogue of a forward push).  The
player steps one cell; a box on that cell is pushed one cell further when
its destination is a floor or target cell not occupied by a box; a blocked
action leaves the state unchanged. -/
def pushAbs (room_structure : Grid) (st : AbsState) (action : Nat) : AbsState :=
  let c := changeCoordinates (action % 4)
  let np : Pos := (st.player.1 + c.1, st.player.2 + c.2)
  let beyond : Pos := (np.1 + c.1, np.2 + c.2)
  if np ∈ st.boxes then
    if (getCell room_structure beyond = 1 ∨ getCell room_structure beyond = 2)
        ∧ beyond ∉ st.boxes then
      ⟨np, insert beyond (st.boxes.erase np)⟩
    else st
  else if (getCell room_structure np = 1 ∨ getCell room_structure np = 2)
      ∧ np ∉ st.boxes then
    ⟨np, st.boxes⟩
  else st

/-- The abstract effect of an effective reverse pull: the player steps to
`player + c`, and a box behind it (at `player - c`) moves onto the vacated
cell. -/
def pullAbs (st : AbsState) (action : Nat) : AbsState :=
  let c := changeCoordinates (action % 4)
  let np : Pos := (st.player.1 + c.1, st.player.2 + c.2)
  let bp : Pos := (st.player.1 - c.1, st.player.2 - c.2)
  if bp ∈ st.boxes then ⟨np, insert st.player (st.boxes.erase bp)⟩
  else ⟨np, st.boxes⟩

/-- The forward-equivalent of a reverse action sequence: the sequence in
reverse order, each pull translated to its corresponding push. -/
def forwardEquivalent (acts : List Nat) : List Nat := acts.reverse.map invertAct

/-- Apply the forward-equivalent of `acts` to an abstract state. -/
def forwardReplay (room_structure : Grid) (st : AbsState) (acts : List Nat) :
    AbsState :=
  (forwardEquivalent acts).foldl (pushAbs room_structure) st

/-- The box cells of a state grid (codes 3 and 4). -/
def boxCells (g : Grid) : Finset Pos := (coordsOf g 3 ++ coordsOf g 4).toFinset

/-- The target cells of a structure grid (code 2). -/
def targetCells (g : Grid) : Finset Pos := (coordsOf g 2).toFinset

/-- The abstraction of a state grid. -/
def absOf (g : Grid) : AbsState := ⟨(findPlayer g).getD (-1, -1), boxCells g⟩

/-! ## Replaying reverse-move chains (proof-side bookkeeping) -/

/-- Run a sequence of reverse moves from a state/mapping/last-pull triple. -/
def runRev (room_structure : Grid) :
    Grid × Mapping × Pos → List Nat → Grid × Mapping × Pos
  | t, [] => t
  | (s, m, lp), a :: rest =>
    runRev room_structure (reverse_move s room_structure m lp a) rest

/-- Is the reverse move effective (the player's destination is a floor or
empty target)? -/
def stepEffective (s : Grid) (action : Nat) : Bool :=
  match findPlayer s with
  | none => false
  | some p =>
    let c := changeCoordinates (action % 4)
    let np : Pos := (p.1 + c.1, p.2 + c.2)
    getCell s np = 1 || getCell s np = 2

/-- Is every reverse move of the chain effective? -/
def effChain (room_structure : Grid) :
    Grid × Mapping × Pos → List Nat → Bool
  | _, [] => true
  | (s, m, lp), a :: rest =>
    stepEffective s a &&
      effChain room_structure (reverse_move s room_structure m lp a) rest

/-! ## Claim-side formulas -/

/-- The number of boxes currently standing on target cells. -/
def boxesOnTargets (room_state room_structure : Grid) : Nat :=
  ((coordsOf room_state 3 ++ coordsOf room_state 4).filter fun q =>
    getCell room_structure q = 2).length

/-- The score formula claimed by C2: `box_swaps * box_displacement_score`,
forced to 0 when the number of boxes on their targets differs from the
original box count. -/
def claimedScoreC2 (room_structure : Grid) (numBoxes : Nat) (v : Visit) : Int :=
  if boxesOnTargets v.state room_structure ≠ numBoxes then 0
  else (v.swaps * box_displacement_score v.mapping : Nat)

/-- The score the search actually computes for a visited state (lines
256-260 of `env_utils.py`): `box_swaps * box_displacement_score`, forced to
0 when the number of cells holding code 2 (targets with neither a box nor
the player on them) differs from the original box count. -/
def dfsScore (numBoxes : Nat) (v : Visit) : Int :=
  if countVal v.state 2 ≠ numBoxes then 0
  else (v.swaps * box_displacement_score v.mapping : Nat)

instance {ε α : Type _} [DecidableEq ε] [DecidableEq α] :
    DecidableEq (Except ε α) := fun x y =>
  match x, y with
  | .ok a, .ok b => decidable_of_iff (a = b) (by simp)
  | .error a, .error b => decidable_of_iff (a = b) (by simp)
  | .ok _, .error _ => isFalse (by simp)
  | .error _, .ok _ => isFalse (by simp)

/-- A grid with `r` rows, each of width `c`. -/
def gridShape (g : Grid) (r c : Nat) : Prop :=
  g.length = r ∧ ∀ (i : Nat) (h : i < g.length), (g[i]).length = c

instance (g : Grid) (r c : Nat) : Decidable (gridShape g r c) := by
  unfold gridShape
  exact inferInstance

/-- Did `generate_room` fail with the placement-capacity error? -/
def isPlacementError : Except GenError LevelData → Bool
  | .error (.placementCapacity _ _ _) => true
  | _ => false

/-- Did `place_boxes_and_player` fail with the placement-capacity error? -/
def isPlacementErrorRoom : Except GenError Grid → Bool
  | .error (.placementCapacity _ _ _) => true
  | _ => false

/-- A position strictly inside the walled border of an `r × c` grid. -/
def interiorPos (r c : Nat) (q : Pos) : Prop :=
  1 ≤ q.1 ∧ q.1 < (r : Int) - 1 ∧ 1 ≤ q.2 ∧ q.2 < (c : Int) - 1

instance (r c : Nat) (q : Pos) : Decidable (interiorPos r c q) := by
  unfold interiorPos
  exact inferInstance

/-- The concrete pre-randomization state of the `gWitness` generation. -/
def C9state : Grid :=
  [[0, 0, 0, 0, 0, 0], [0, 0, 0, 0, 0, 0], [0, 0, 1, 1, 0, 0],
   [0, 2, 4, 5, 0, 0], [0, 0, 0, 0, 0, 0], [0, 0, 0, 0, 0, 0]]

/-- The concrete structure grid of the `gWitness` generation. -/
def C9struct : Grid :=
  [[0, 0, 0, 0, 0, 0], [0, 0, 0, 0, 0, 0], [0, 0, 1, 1, 0, 0],
   [0, 2, 1, 1, 0, 0], [0, 0, 0, 0, 0, 0], [0, 0, 0, 0, 0, 0]]

/-- Is a position inside the grid proper (no numpy wrap involved)? -/
def inB (g : Grid) (p : Pos) : Prop :=
  0 ≤ p.1 ∧ p.1 < g.length ∧ 0 ≤ p.2 ∧ p.2 < (g.getD p.1.toNat []).length

instance (g : Grid) (p : Pos) : Decidable (inB g p) := by
  unfold inB; exact inferInstance

/-! ## Proof-side predicates for the reverse-play correspondence -/

/-- The state grid `s` realises the abstract state `a` over the structure
grid `rs`: the player's cell holds 5, every abstract box cell holds a box
code, and every other cell shows its structural value. -/
def represents (rs s : Grid) (a : AbsState) : Prop :=
  getCell s a.player = 5 ∧
  (∀ b ∈ a.boxes, getCell s b = 3 ∨ getCell s b = 4) ∧
  (∀ q, inB s q → q ≠ a.player → q ∉ a.boxes → getCell s q = getCell rs q)

/-- Well-formedness of an abstract state over the structure grid: the
player and all boxes sit on pairwise distinct interior floor or target
cells. -/
def absWF (rs : Grid) (r c : Nat) (a : AbsState) : Prop :=
  interiorPos r c a.player ∧ a.player ∉ a.boxes ∧
  (getCell rs a.player = 1 ∨ getCell rs a.player = 2) ∧
  (∀ b ∈ a.boxes, interiorPos r c b ∧
    (getCell rs b = 1 ∨ getCell rs b = 2))

/-- Well-formedness of the structure grid: correct shape, a reduced
wall/floor/target alphabet, and every non-wall cell strictly inside the
border. -/
def structWF (rs : Grid) (r c : Nat) : Prop :=
  gridShape rs r c ∧
  (∀ q, inB rs q → getCell rs q = 0 ∨ getCell rs q = 1 ∨ getCell rs q = 2) ∧
  (∀ q, inB rs q → getCell rs q = 1 ∨ getCell rs q = 2 → interiorPos r c q)

/-- Every non-interior (border) cell is a wall. -/
def borderZero (g : Grid) (r c : Nat) : Prop :=
  ∀ q, inB g q → ¬interiorPos r c q → getCell g q = 0

/-- The search's running best state was reached from the initial
state/mapping/last-pull triple by a chain of effective reverse moves with
in-range actions, recorded in `bestActions`. -/
def BestInv (rs : Grid) (init : Grid × Mapping × Pos) (ctx : SearchCtx) :
    Prop :=
  (runRev rs init ctx.bestActions).1 = ctx.bestRoom ∧
  effChain rs init ctx.bestActions = true ∧
  ∀ x ∈ ctx.bestActions, x < 4

/-! ## Concrete runs used as witnesses and counterexamples -/

/-- A 6×6 structure grid: one target at (2,2) in a one-cell-high corridor. -/
def Tgrid : Grid :=
  [[0, 0, 0, 0, 0, 0], [0, 0, 0, 0, 0, 0], [0, 1, 2, 1, 1, 0],
   [0, 0, 0, 0, 0, 0], [0, 0, 0, 0, 0, 0], [0, 0, 0, 0, 0, 0]]

/-- The matching solved state: the box sits on its target, the player to
its right. -/
def Sgrid : Grid :=
  [[0, 0, 0, 0, 0, 0], [0, 0, 0, 0, 0, 0], [0, 1, 4, 5, 1, 0],
   [0, 0, 0, 0, 0, 0], [0, 0, 0, 0, 0, 0], [0, 0, 0, 0, 0, 0]]

/-- A draw stream under which `generate_room (6,6) 1 2 1 1 false 3`
succeeds with displacement score 1 and the randomizer then moves the
player one step. -/
def gWitness : RNG := ⟨[0, 1, 1, 0, 0, 2, 4, 3, 2, 0], [0, 0, 0, 1]⟩

/-- A 4×5 room of floors used for the second-player counterexample. -/
def C3room : Grid :=
  [[0, 0, 0, 0, 0], [0, 1, 1, 1, 0], [0, 1, 1, 1, 0], [0, 0, 0, 0, 0]]

/-- A draw stream making both player draws pick the same floor cell. -/
def C3g : RNG := ⟨[0, 0, 0], []⟩

/-- The player count of a successful placement result. -/
def okPlayerCount : Except GenError Grid → Nat
  | .ok room => countVal room 5
  | .error _ => 0

/-- The placement produced from `C3room` with a single player under the
stream `C3g`. -/
def C3roomPlaced : Grid :=
  [[0, 0, 0, 0, 0], [0, 5, 2, 1, 0], [0, 1, 1, 1, 0], [0, 0, 0, 0, 0]]

/-- A search context whose explored set already holds 300000 fingerprints
(used to exercise the hard cap). -/
def cappedCtx : SearchCtx := ⟨List.replicate 300000 [], -1, [], [], [], 0, []⟩

/-- The full level returned by `generate_room (6,6) 1 2 1 1 false 3` on the
`gWitness` stream: the `C9struct`/`C9state` level with the player then
randomized one step up, onto (2, 3). -/
def C10level : LevelData :=
  ⟨C9struct,
   [[0, 0, 0, 0, 0, 0], [0, 0, 0, 0, 0, 0], [0, 0, 1, 5, 0, 0],
    [0, 2, 4, 1, 0, 0], [0, 0, 0, 0, 0, 0], [0, 0, 0, 0, 0, 0]],
   [((3, 1), 3, 2)], [3]⟩

/-- The level accepted by the generation loop of the `gWitness` run,
before the player randomizer runs. -/
def C1level : LevelData := ⟨C9struct, C9state, [((3, 1), 3, 2)], [3]⟩

/-- Do all of the next `tries` generation attempts run to completion with
box displacement score 0?  (The condition under which the acceptance loop
raises the degenerate-generation error.) -/
def allAttemptsZero (dim : Nat × Nat) (pChange : ℚ) (numSteps numBoxes : Nat)
    (secondPlayer : Bool) (searchDepth : Nat) : Nat → RNG → Prop
  | 0, _ => True
  | t + 1, g =>
    let a1 := attemptOnce dim pChange numSteps numBoxes secondPlayer searchDepth g
    match a1.1 with
    | .error _ => False
    | .ok L =>
      box_displacement_score L.box_mapping = 0 ∧
        allAttemptsZero dim pChange numSteps numBoxes secondPlayer searchDepth t a1.2

/-!
# Theorems
-/

/-! ### Counting and shape basics -/

theorem coordsRowAux_length (i v : Nat) :
    ∀ (j : Nat) (row : List Nat),
      (coordsRowAux i v j row).length = row.count v := by
  intro j row
  induction row generalizing j with
  | nil => rfl
  | cons c rest ih =>
    simp only [coordsRowAux, List.length_append, ih]
    by_cases h : c = v
    · simp [List.count_cons, h, Nat.add_comm]
    · simp [List.count_cons, h]

theorem coordsOfAux_length (v : Nat) :
    ∀ (i : Nat) (g : Grid), (coordsOfAux v i g).length = countVal g v := by
  intro i g
  induction g generalizing i with
  | nil => rfl
  | cons row rest ih =>
    simp [coordsOfAux, countVal, coordsRowAux_length, ih, List.sum_cons]

/-- The floor-cell list is exactly as long as the floor-cell count. -/
theorem coordsOf_length (g : Grid) (v : Nat) :
    (coordsOf g v).length = countVal g v :=
  coordsOfAux_length v 0 g

/-- A value count is bounded by the number of cells. -/
theorem countVal_le_of_shape (g : Grid) (r c v : Nat) (h : gridShape g r c) :
    countVal g v ≤ r * c := by
  obtain ⟨hr, hc⟩ := h
  have hle : countVal g v ≤ (g.map List.length).sum := by
    unfold countVal
    apply List.sum_le_sum
    intro row _
    exact List.count_le_length v row
  have hmem : ∀ x ∈ g.map List.length, x = c := by
    intro x hx
    rw [List.mem_map] at hx
    obtain ⟨row, hrow, rfl⟩ := hx
    obtain ⟨i, hi, hEq⟩ := List.mem_iff_getElem.mp hrow
    rw [← hEq]
    exact hc i hi
  have hsum : (g.map List.length).sum = r * c := by
    rw [List.eq_replicate_of_mem hmem, List.sum_replicate, List.length_map, hr,
      smul_eq_mul]
  rw [← hsum]
  exact hle

theorem mapGrid_shape (g : Grid) (f : Nat → Nat) (r c : Nat)
    (h : gridShape g r c) : gridShape (mapGrid g f) r c := by
  obtain ⟨hr, hc⟩ := h
  refine ⟨by simp [mapGrid, hr], ?_⟩
  intro i hi
  simp only [mapGrid, List.length_map] at hi ⊢
  simp only [List.getElem_map, List.length_map]
  exact hc i hi

theorem applyMask_shape (lvl : Grid) (a b : Int) (mask : List (List Nat))
    (r c : Nat) (h : gridShape lvl r c) :
    gridShape (applyMask lvl a b mask) r c := by
  obtain ⟨hr, hc⟩ := h
  refine ⟨by simp [applyMask, List.length_mapIdx, hr], ?_⟩
  intro i hi
  simp only [applyMask, List.length_mapIdx] at hi ⊢
  simp only [List.getElem_mapIdx, List.length_mapIdx]
  exact hc i hi

theorem setCell_shape (g : Grid) (p : Pos) (v : Nat) (r c : Nat)
    (h : gridShape g r c) : gridShape (setCell g p v) r c := by
  obtain ⟨hr, hc⟩ := h
  unfold setCell
  refine ⟨by simp [List.length_set, hr], ?_⟩
  intro i hi
  simp only [List.length_set] at hi
  rw [List.getElem_set]
  split
  · rename_i heq
    rw [List.length_set]
    have hgetD : g.getD (npIdx g.length p.1) [] = g[i] := by
      rw [heq, List.getD_eq_getElem?_getD, List.getElem?_eq_getElem hi]
      rfl
    rw [hgetD]
    exact hc i hi
  · exact hc i hi

theorem topoWalk_shape (dim : Nat × Nat) (pCh : ℚ) (r c : Nat) :
    ∀ (n : Nat) (st : TopoState) (g : RNG),
      gridShape st.level r c →
      gridShape (topoWalk dim pCh n st g).1.level r c := by
  intro n
  induction n with
  | zero => intro st g h; exact h
  | succ k ih =>
    intro st g h
    simp only [topoWalk]
    apply ih
    simp only [topoStep]
    exact applyMask_shape _ _ _ _ _ _ h

/-- The generated topology has the requested dimensions. -/
theorem topology_shape (dim : Nat × Nat) (pCh : ℚ) (nS : Nat) (g : RNG) :
    gridShape (room_topology_generation dim pCh nS g).1 dim.1 dim.2 := by
  have hrep : gridShape (List.replicate dim.1 (List.replicate dim.2 0)) dim.1 dim.2 := by
    refine ⟨by simp, ?_⟩
    intro i hi
    simp only [List.getElem_replicate]
    simp
  have hwalk := topoWalk_shape dim pCh dim.1 dim.2 nS
    ⟨walkDirections.getD (drawNat g walkDirections.length).1 (1, 0),
      (1 + ((drawNat (drawNat g walkDirections.length).2 (dim.1 - 1)).1 : Int),
       1 + ((drawNat (drawNat (drawNat g walkDirections.length).2 (dim.1 - 1)).2 (dim.2 - 1)).1 : Int)),
      List.replicate dim.1 (List.replicate dim.2 0)⟩
    (drawNat (drawNat (drawNat g walkDirections.length).2 (dim.1 - 1)).2 (dim.2 - 1)).2
    hrep
  have hmap := mapGrid_shape _ (fun v => if 0 < v then 1 else v) dim.1 dim.2 hwalk
  simp only [room_topology_generation]
  obtain ⟨hr, hc⟩ := hmap
  refine ⟨by simpa [List.length_mapIdx] using hr, ?_⟩
  intro i hi
  simp only [List.length_mapIdx] at hi ⊢
  simp only [List.getElem_mapIdx, List.length_mapIdx]
  exact hc i hi

/-! ### Positions, cell access and cell update -/

theorem npIdx_eq (n : Nat) (i : Int) (h0 : 0 ≤ i) (h1 : i < (n : Int)) :
    npIdx n i = i.toNat := by
  unfold npIdx
  rw [Int.emod_eq_of_lt h0 h1]

theorem getCell_inB (g : Grid) (p : Pos) (h : inB g p) :
    getCell g p = (g.getD p.1.toNat []).getD p.2.toNat 0 := by
  obtain ⟨h1, h2, h3, h4⟩ := h
  simp only [getCell]
  rw [npIdx_eq _ _ h1 (by exact_mod_cast h2)]
  rw [npIdx_eq _ _ h3 (by exact_mod_cast h4)]

theorem setCell_inB (g : Grid) (p : Pos) (v : Nat) (h : inB g p) :
    setCell g p v = g.set p.1.toNat ((g.getD p.1.toNat []).set p.2.toNat v) := by
  obtain ⟨h1, h2, h3, h4⟩ := h
  simp only [setCell]
  rw [npIdx_eq _ _ h1 (by exact_mod_cast h2)]
  rw [npIdx_eq _ _ h3 (by exact_mod_cast h4)]

theorem mem_coordsRowAux (i v : Nat) :
    ∀ (row : List Nat) (j : Nat) (q : Pos),
      q ∈ coordsRowAux i v j row ↔
        ∃ k, k < row.length ∧ row.getD k 0 = v ∧
          q = ((i : Int), ((j + k : Nat) : Int)) := by
  intro row
  induction row with
  | nil => intro j q; simp [coordsRowAux]
  | cons c rest ih =>
    intro j q
    simp only [coordsRowAux, List.mem_append, ih (j + 1)]
    constructor
    · intro h
      rcases h with h | ⟨k, hk, hv, hq⟩
      · refine ⟨0, by simp, ?_, ?_⟩
        · by_cases hc : c = v
          · exact hc
          · simp [hc] at h
        · by_cases hc : c = v
          · simp [hc] at h
            simpa using h
          · simp [hc] at h
      · exact ⟨k + 1, by simpa using hk, by simpa using hv,
          by rw [hq]; congr 2; omega⟩
    · rintro ⟨k, hk, hv, hq⟩
      cases k with
      | zero =>
        left
        simp only [List.getD_cons_zero] at hv
        simp [hv, hq]
      | succ k =>
        right
        refine ⟨k, by simpa using hk, by simpa using hv, ?_⟩
        rw [hq]
        congr 2
        omega

theorem mem_coordsOfAux (v : Nat) :
    ∀ (g : Grid) (i0 : Nat) (q : Pos),
      q ∈ coordsOfAux v i0 g ↔
        ∃ r k, r < g.length ∧ k < (g.getD r []).length ∧
          (g.getD r []).getD k 0 = v ∧
          q = (((i0 + r : Nat) : Int), (k : Int)) := by
  intro g
  induction g with
  | nil => intro i0 q; simp [coordsOfAux]
  | cons row rest ih =>
    intro i0 q
    simp only [coordsOfAux, List.mem_append, mem_coordsRowAux, ih (i0 + 1)]
    constructor
    · intro h
      rcases h with ⟨k, hk, hv, hq⟩ | ⟨r, k, hr, hk, hv, hq⟩
      · exact ⟨0, k, by simp, by simpa using hk, by simpa using hv,
          by rw [hq]; congr 2; omega⟩
      · exact ⟨r + 1, k, by simpa using hr, by simpa using hk, by simpa using hv,
          by rw [hq]; congr 2; omega⟩
    · rintro ⟨r, k, hr, hk, hv, hq⟩
      cases r with
      | zero =>
        left
        refine ⟨k, by simpa using hk, by simpa using hv, ?_⟩
        rw [hq]
        congr 2
        omega
      | succ r =>
        right
        refine ⟨r, k, by simpa using hr, by simpa using hk, by simpa using hv, ?_⟩
        rw [hq]
        congr 2
        omega

/-- `np.where` membership: a position is listed for value `v` exactly when
it lies in the grid and its cell holds `v`. -/
theorem mem_coordsOf (g : Grid) (v : Nat) (q : Pos) :
    q ∈ coordsOf g v ↔ inB g q ∧ getCell g q = v := by
  unfold coordsOf
  rw [mem_coordsOfAux]
  constructor
  · rintro ⟨r, k, hr, hk, hv, rfl⟩
    have hinB : inB g ((r : Int), (k : Int)) := by
      refine ⟨by positivity, by simpa using hr, by positivity, ?_⟩
      simpa using hk
    refine ⟨by simpa using hinB, ?_⟩
    rw [getCell_inB _ _ (by simpa using hinB)]
    simpa using hv
  · rintro ⟨hinB, hv⟩
    obtain ⟨h1, h2, h3, h4⟩ := hinB
    refine ⟨q.1.toNat, q.2.toNat, by omega, by omega, ?_, ?_⟩
    · rw [← getCell_inB _ _ ⟨h1, h2, h3, h4⟩]
      exact hv
    · rw [Prod.ext_iff]
      constructor
      · simp
        omega
      · simp
        omega

/-- Row lengths are untouched by a cell update. -/
theorem rowLen_setCell (g : Grid) (p : Pos) (v : Nat) (hp : inB g p) (j : Nat) :
    ((setCell g p v).getD j []).length = (g.getD j []).length := by
  rw [setCell_inB g p v hp]
  obtain ⟨a1, a2, a3, a4⟩ := hp
  by_cases hj : p.1.toNat = j
  · subst hj
    rw [List.getD_eq_getElem?_getD, List.getElem?_set_self (by omega),
      Option.getD_some, List.length_set]
  · rw [List.getD_eq_getElem?_getD, List.getElem?_set_ne hj,
      ← List.getD_eq_getElem?_getD]

theorem inB_setCell (g : Grid) (p q : Pos) (v : Nat) (hp : inB g p) :
    inB (setCell g p v) q ↔ inB g q := by
  unfold inB
  rw [rowLen_setCell g p v hp]
  rw [setCell_inB g p v hp, List.length_set]

theorem getCell_setCell_self (g : Grid) (p : Pos) (v : Nat) (hp : inB g p) :
    getCell (setCell g p v) p = v := by
  have hp' : inB (setCell g p v) p := (inB_setCell g p p v hp).mpr hp
  rw [getCell_inB _ _ hp', setCell_inB g p v hp]
  obtain ⟨h1, h2, h3, h4⟩ := hp
  have hset : (g.set p.1.toNat ((g.getD p.1.toNat []).set p.2.toNat v)).getD
      p.1.toNat [] = (g.getD p.1.toNat []).set p.2.toNat v := by
    rw [List.getD_eq_getElem?_getD, List.getElem?_set_self (by omega)]
    rfl
  rw [hset, List.getD_eq_getElem?_getD, List.getElem?_set_self (by omega)]
  rfl

theorem getCell_setCell_ne (g : Grid) (p q : Pos) (v : Nat) (hp : inB g p)
    (hq : inB g q) (hne : p ≠ q) :
    getCell (setCell g p v) q = getCell g q := by
  have hq' : inB (setCell g p v) q := (inB_setCell g p q v hp).mpr hq
  rw [getCell_inB _ _ hq', getCell_inB _ _ hq, setCell_inB g p v hp]
  obtain ⟨a1, a2, a3, a4⟩ := hp
  obtain ⟨b1, b2, b3, b4⟩ := hq
  by_cases hrow : p.1.toNat = q.1.toNat
  · have hcol : p.2.toNat ≠ q.2.toNat := by
      intro hc
      apply hne
      rw [Prod.ext_iff]
      omega
    have hset : (g.set p.1.toNat ((g.getD p.1.toNat []).set p.2.toNat v)).getD
        q.1.toNat [] = (g.getD p.1.toNat []).set p.2.toNat v := by
      rw [List.getD_eq_getElem?_getD, ← hrow,
        List.getElem?_set_self (by omega)]
      rfl
    rw [hset, List.getD_eq_getElem?_getD, List.getElem?_set_ne hcol,
      ← List.getD_eq_getElem?_getD, hrow]
  · rw [List.getD_eq_getElem?_getD (g.set _ _), List.getElem?_set_ne hrow,
      ← List.getD_eq_getElem?_getD]

/-! ### Counting under cell updates, and value ranges -/

theorem count_set_add (v w : Nat) :
    ∀ (row : List Nat) (j : Nat), j < row.length →
      (row.set j w).count v + (if row.getD j 0 = v then 1 else 0)
        = row.count v + (if w = v then 1 else 0) := by
  intro row
  induction row with
  | nil => intro j h; simp at h
  | cons c rest ih =>
    intro j hj
    cases j with
    | zero =>
      simp only [List.set_cons_zero, List.getD_cons_zero, List.count_cons,
        beq_iff_eq]
      omega
    | succ j =>
      simp only [List.set_cons_succ, List.getD_cons_succ, List.count_cons,
        beq_iff_eq]
      have h5 := ih j (by simpa using hj)
      omega

theorem sum_set_add :
    ∀ (l : List Nat) (i x : Nat), i < l.length →
      (l.set i x).sum + l.getD i 0 = l.sum + x := by
  intro l
  induction l with
  | nil => intro i x h; simp at h
  | cons a rest ih =>
    intro i x hi
    cases i with
    | zero =>
      simp only [List.set_cons_zero, List.sum_cons, List.getD_cons_zero]
      omega
    | succ i =>
      simp only [List.set_cons_succ, List.sum_cons, List.getD_cons_succ]
      have := ih i x (by simpa using hi)
      omega

/-- How one cell update shifts a value count (in addition form, avoiding
truncated subtraction). -/
theorem countVal_setCell_add (g : Grid) (p : Pos) (w v : Nat) (h : inB g p) :
    countVal (setCell g p w) v + (if getCell g p = v then 1 else 0)
      = countVal g v + (if w = v then 1 else 0) := by
  obtain ⟨h1, h2, h3, h4⟩ := h
  rw [setCell_inB g p w ⟨h1, h2, h3, h4⟩, getCell_inB g p ⟨h1, h2, h3, h4⟩]
  unfold countVal
  rw [List.map_set]
  have hs := sum_set_add (g.map fun r => r.count v) p.1.toNat
    (((g.getD p.1.toNat []).set p.2.toNat w).count v)
    (by rw [List.length_map]; omega)
  have hgetD : (g.map fun r => r.count v).getD p.1.toNat 0
      = (g.getD p.1.toNat []).count v := by
    rw [List.getD_eq_getElem?_getD, List.getElem?_map,
      List.getElem?_eq_getElem (by omega : p.1.toNat < g.length),
      List.getD_eq_getElem?_getD,
      List.getElem?_eq_getElem (by omega : p.1.toNat < g.length)]
    rfl
  have hrow := count_set_add v w (g.getD p.1.toNat []) p.2.toNat (by omega)
  rw [hgetD] at hs
  omega

theorem countVal_setCell_change (g : Grid) (p : Pos) (w v : Nat) (h : inB g p)
    (hold : getCell g p ≠ v) (hw : w = v) :
    countVal (setCell g p w) v = countVal g v + 1 := by
  have hadd := countVal_setCell_add g p w v h
  rw [if_neg hold, if_pos hw] at hadd
  omega

theorem countVal_setCell_keep (g : Grid) (p : Pos) (w v : Nat) (h : inB g p)
    (hold : getCell g p ≠ v) (hw : w ≠ v) :
    countVal (setCell g p w) v = countVal g v := by
  have hadd := countVal_setCell_add g p w v h
  rw [if_neg hold, if_neg hw] at hadd
  omega

theorem countVal_setCell_drop (g : Grid) (p : Pos) (w v : Nat) (h : inB g p)
    (hold : getCell g p = v) (hw : w ≠ v) :
    countVal (setCell g p w) v + 1 = countVal g v := by
  have hadd := countVal_setCell_add g p w v h
  rw [if_pos hold, if_neg hw] at hadd
  omega

theorem countVal_setCell_same (g : Grid) (p : Pos) (w v : Nat) (h : inB g p)
    (hold : getCell g p = v) (hw : w = v) :
    countVal (setCell g p w) v = countVal g v := by
  have hadd := countVal_setCell_add g p w v h
  rw [if_pos hold, if_pos hw] at hadd
  omega

/-- Every element of the chosen-coordinate list is a floor cell of the
requested value. -/
theorem coordsOf_getD_spec (room : Grid) (v : Nat) (ind : Nat)
    (hind : ind < (coordsOf room v).length) :
    inB room ((coordsOf room v).getD ind (0, 0)) ∧
    getCell room ((coordsOf room v).getD ind (0, 0)) = v := by
  have hmem : (coordsOf room v).getD ind (0, 0) ∈ coordsOf room v := by
    rw [List.getD_eq_getElem?_getD, List.getElem?_eq_getElem hind]
    exact List.getElem_mem hind
  exact (mem_coordsOf room v _).mp hmem

theorem countVal_eq_zero (g : Grid) (v : Nat)
    (h : ∀ w ∈ cellValues g, w ≠ v) : countVal g v = 0 := by
  apply List.sum_eq_zero
  intro x hx
  rw [List.mem_map] at hx
  obtain ⟨row, hrow, rfl⟩ := hx
  rw [List.count_eq_zero]
  intro hv
  exact h v (by unfold cellValues; exact List.mem_flatten.mpr ⟨row, hrow, hv⟩) rfl

/-- The generated topology is a pure floor/wall grid. -/
theorem topology_vals (dim : Nat × Nat) (pCh : ℚ) (nS : Nat) (g : RNG) :
    ∀ w ∈ cellValues (room_topology_generation dim pCh nS g).1,
      w = 0 ∨ w = 1 := by
  intro w hw
  unfold cellValues at hw
  rw [List.mem_flatten] at hw
  obtain ⟨row, hrow, hwrow⟩ := hw
  simp only [room_topology_generation] at hrow
  obtain ⟨i, hi, hEqr⟩ := List.mem_iff_getElem.mp hrow
  rw [List.getElem_mapIdx] at hEqr
  rw [← hEqr] at hwrow
  obtain ⟨j, hj, hEqw⟩ := List.mem_iff_getElem.mp hwrow
  rw [List.getElem_mapIdx] at hEqw
  rw [← hEqw]
  split
  · exact Or.inl rfl
  · simp only [mapGrid, List.getElem_map]
    split
    · exact Or.inr rfl
    · rename_i hpos
      omega

/-! ### Characterising one expansion of the search -/

theorem visitCtx_numBoxes (ctx : SearchCtx) (s : Grid) (m : Mapping)
    (sw : Nat) (acts : List Nat) :
    (visitCtx ctx s m sw acts).numBoxes = ctx.numBoxes := by
  simp only [visitCtx]
  split <;> split <;> rfl

theorem visitCtx_explored (ctx : SearchCtx) (s : Grid) (m : Mapping)
    (sw : Nat) (acts : List Nat) :
    (visitCtx ctx s m sw acts).explored = s :: ctx.explored := by
  simp only [visitCtx]
  split <;> split <;> rfl

theorem visitCtx_visits (ctx : SearchCtx) (s : Grid) (m : Mapping)
    (sw : Nat) (acts : List Nat) :
    ∀ v ∈ (visitCtx ctx s m sw acts).visits,
      v ∈ ctx.visits ∨
        (v.state = s ∧ v.mapping = m ∧ v.swaps = sw ∧ v.acts = acts ∧
          v.score = dfsScore ctx.numBoxes v) := by
  intro v hv
  simp only [visitCtx] at hv
  split at hv <;> split at hv <;>
  · simp only [List.mem_append, List.mem_singleton] at hv
    rcases hv with hv | hv
    · exact Or.inl hv
    · subst hv
      refine Or.inr ⟨rfl, rfl, rfl, rfl, ?_⟩
      simp [dfsScore, *]

theorem visitCtx_best (ctx : SearchCtx) (s : Grid) (m : Mapping)
    (sw : Nat) (acts : List Nat) :
    ((visitCtx ctx s m sw acts).bestRoom = s ∧
     (visitCtx ctx s m sw acts).bestMapping = m ∧
     (visitCtx ctx s m sw acts).bestActions = acts) ∨
    ((visitCtx ctx s m sw acts).bestRoom = ctx.bestRoom ∧
     (visitCtx ctx s m sw acts).bestMapping = ctx.bestMapping ∧
     (visitCtx ctx s m sw acts).bestActions = ctx.bestActions) := by
  simp only [visitCtx]
  split <;> split
  · exact Or.inl ⟨rfl, rfl, rfl⟩
  · exact Or.inr ⟨rfl, rfl, rfl⟩
  · exact Or.inl ⟨rfl, rfl, rfl⟩
  · exact Or.inr ⟨rfl, rfl, rfl⟩

/-- `numBoxes` is only read, never written, by the depth-first search. -/
theorem dfs_numBoxes (rs : Grid) :
    ∀ (fuel : Nat) (s : Grid) (m : Mapping) (sw : Nat) (lp : Pos)
      (acts : List Nat) (ctx : SearchCtx),
      (depth_first_search rs fuel s m sw lp acts ctx).numBoxes = ctx.numBoxes := by
  intro fuel
  induction fuel with
  | zero => intro s m sw lp acts ctx; rfl
  | succ t ih =>
    intro s m sw lp acts ctx
    simp only [depth_first_search]
    split
    · rfl
    · split
      · rfl
      · rw [ih, ih, ih, ih, visitCtx_numBoxes]

/-- Every visit record logged by the search carries the score computed by
the source's formula `dfsScore`. -/
theorem dfs_visits_score (rs : Grid) (n : Nat) :
    ∀ (fuel : Nat) (s : Grid) (m : Mapping) (sw : Nat) (lp : Pos)
      (acts : List Nat) (ctx : SearchCtx),
      ctx.numBoxes = n →
      (∀ v ∈ ctx.visits, v.score = dfsScore n v) →
      ∀ v ∈ (depth_first_search rs fuel s m sw lp acts ctx).visits,
        v.score = dfsScore n v := by
  intro fuel
  induction fuel with
  | zero => intro s m sw lp acts ctx _ h; exact h
  | succ t ih =>
    intro s m sw lp acts ctx hn h
    simp only [depth_first_search]
    split
    · exact h
    · split
      · exact h
      · have hn2 : (visitCtx ctx s m sw acts).numBoxes = n := by
          rw [visitCtx_numBoxes, hn]
        have h2 : ∀ v ∈ (visitCtx ctx s m sw acts).visits,
            v.score = dfsScore n v := by
          intro v hv
          rcases visitCtx_visits ctx s m sw acts v hv with hv | hv
          · exact h v hv
          · rw [hv.2.2.2.2, hn]
        apply ih _ _ _ _ _ _ (by rw [dfs_numBoxes, dfs_numBoxes, dfs_numBoxes, hn2])
        apply ih _ _ _ _ _ _ (by rw [dfs_numBoxes, dfs_numBoxes, hn2])
        apply ih _ _ _ _ _ _ (by rw [dfs_numBoxes, hn2])
        exact ih _ _ _ _ _ _ hn2 h2

/-! ### Claim C2 -/

/-- C2, counterexample: in the concrete search from `Sgrid`/`Tgrid`, a
visited state (the one reached by a single pull) has score 1, while the
claimed formula — forcing 0 whenever the number of boxes on their targets
drifted from the box count — would force its score to 0, since the pull
left no box on any target. -/
theorem c2_counterexample :
    ¬ (∀ v ∈ (reverse_playingCtx Sgrid Tgrid 3).visits,
        v.score = claimedScoreC2 Tgrid
          (reverse_playingCtx Sgrid Tgrid 3).numBoxes v) := by
  decide

/-- C2 (amended): for every state visited by `depth_first_search` during a
`reverse_playing` search, the state's score equals `box_swaps *
box_displacement_score(box_mapping)`, except that the score is forced to 0
when the number of cells holding code 2 — targets with neither a box nor
the player on them — differs from the original box count (`dfsScore`). -/
theorem c2_visit_scores (room_state room_structure : Grid)
    (search_depth : Nat) :
    ∀ v ∈ (reverse_playingCtx room_state room_structure search_depth).visits,
      v.score = dfsScore (coordsOf room_structure 2).length v := by
  intro v hv
  simp only [reverse_playingCtx] at hv
  exact dfs_visits_score room_structure ((coordsOf room_structure 2).length)
    search_depth _ _ _ _ _ _ rfl (by intro w hw; cases hw) v hv

/-- Witness for C2's amended theorem: the root visit of the concrete
search, with its hypotheses discharged by evaluation. -/
theorem c2_witness :
    (⟨Sgrid, [((2, 2), (2, 2))], 0, 0, []⟩ : Visit).score
      = dfsScore (coordsOf Tgrid 2).length ⟨Sgrid, [((2, 2), (2, 2))], 0, 0, []⟩ :=
  c2_visit_scores Sgrid Tgrid 3 ⟨Sgrid, [((2, 2), (2, 2))], 0, 0, []⟩ (by decide)

/-! ### Claim C5 -/

/-- With the decremented budget at 0, the search returns its context
unchanged: the stop conditions sit at the head of every recursive entry. -/
theorem dfs_fuel_one (rs s : Grid) (m : Mapping) (sw : Nat) (lp : Pos)
    (acts : List Nat) (ctx : SearchCtx) :
    depth_first_search rs 1 s m sw lp acts ctx = ctx := by
  simp [depth_first_search]

/-- Once the explored set holds 300000 fingerprints, the search returns
its context unchanged whatever the remaining budget. -/
theorem dfs_capped (rs : Grid) :
    ∀ (fuel : Nat) (s : Grid) (m : Mapping) (sw : Nat) (lp : Pos)
      (acts : List Nat) (ctx : SearchCtx),
      300000 ≤ ctx.explored.length →
      depth_first_search rs fuel s m sw lp acts ctx = ctx := by
  intro fuel
  cases fuel with
  | zero => intro s m sw lp acts ctx _; rfl
  | succ t =>
    intro s m sw lp acts ctx h
    simp [depth_first_search, h]

/-- The explored set never grows beyond 300000 fingerprints. -/
theorem dfs_explored_le (rs : Grid) :
    ∀ (fuel : Nat) (s : Grid) (m : Mapping) (sw : Nat) (lp : Pos)
      (acts : List Nat) (ctx : SearchCtx),
      ctx.explored.length ≤ 300000 →
      (depth_first_search rs fuel s m sw lp acts ctx).explored.length ≤ 300000 := by
  intro fuel
  induction fuel with
  | zero => intro s m sw lp acts ctx h; exact h
  | succ t ih =>
    intro s m sw lp acts ctx h
    simp only [depth_first_search]
    split
    · exact h
    · split
      · exact h
      · rename_i hcond _
        push_neg at hcond
        apply ih
        apply ih
        apply ih
        apply ih
        rw [visitCtx_explored]
        simp only [List.length_cons]
        omega

/-- Every state the search expands lies at recursion depth at most the
entry budget: its recorded action list is shorter than `acts.length +
fuel`. -/
theorem dfs_visits_depth (rs : Grid) :
    ∀ (fuel : Nat) (s : Grid) (m : Mapping) (sw : Nat) (lp : Pos)
      (acts : List Nat) (ctx : SearchCtx),
      ∀ v ∈ (depth_first_search rs fuel s m sw lp acts ctx).visits,
        v ∈ ctx.visits ∨ v.acts.length < acts.length + fuel := by
  intro fuel
  induction fuel with
  | zero => intro s m sw lp acts ctx v hv; exact Or.inl hv
  | succ t ih =>
    intro s m sw lp acts ctx v hv
    simp only [depth_first_search] at hv
    split at hv
    · exact Or.inl hv
    · split at hv
      · exact Or.inl hv
      · have step : ∀ (a : Nat) (c : SearchCtx) (s' : Grid) (m' : Mapping)
            (sw' : Nat) (lp' : Pos),
            v ∈ (depth_first_search rs t s' m' sw' lp' (acts ++ [a]) c).visits →
            v ∈ c.visits ∨ v.acts.length < acts.length + (t + 1) := by
          intro a c s' m' sw' lp' hmem
          rcases ih s' m' sw' lp' (acts ++ [a]) c v hmem with hin | hlt
          · exact Or.inl hin
          · right
            simp only [List.length_append, List.length_singleton] at hlt
            omega
        rcases step _ _ _ _ _ _ hv with hv | hlt
        · rcases step _ _ _ _ _ _ hv with hv | hlt
          · rcases step _ _ _ _ _ _ hv with hv | hlt
            · rcases step _ _ _ _ _ _ hv with hv | hlt
              · rcases visitCtx_visits _ _ _ _ _ v hv with hv | hnew
                · exact Or.inl hv
                · right
                  rw [hnew.2.2.2.1]
                  omega
              · exact Or.inr hlt
            · exact Or.inr hlt
          · exact Or.inr hlt
        · exact Or.inr hlt

/-- C5: the search always terminates (it is a total function of its
budget); during one `reverse_playing` invocation the number of distinct
fingerprints in the explored set never exceeds 300000 (the set only ever
grows by fresh states, so its length is its cardinality); every expanded
state lies at recursion depth at most `search_depth` (its action list is
shorter than the budget, and the time-to-live decreases by one per
recursive call); and both stopping conditions are checked at every
recursive entry — a call entered with an exhausted budget or a saturated
explored set returns its context unchanged. -/
theorem c5_search_bounds (room_state room_structure : Grid)
    (search_depth fuel : Nat) (s : Grid) (m : Mapping) (sw : Nat) (lp : Pos)
    (acts : List Nat) (ctx : SearchCtx) :
    (reverse_playingCtx room_state room_structure search_depth).explored.length
        ≤ 300000 ∧
    (∀ v ∈ (reverse_playingCtx room_state room_structure search_depth).visits,
      v.acts.length < search_depth) ∧
    depth_first_search room_structure 1 s m sw lp acts ctx = ctx ∧
    (300000 ≤ ctx.explored.length →
      depth_first_search room_structure fuel s m sw lp acts ctx = ctx) := by
  refine ⟨?_, ?_, dfs_fuel_one _ _ _ _ _ _ _, dfs_capped _ _ _ _ _ _ _ _⟩
  · exact dfs_explored_le _ _ _ _ _ _ _ _ (by simp)
  · intro v hv
    simp only [reverse_playingCtx] at hv
    rcases dfs_visits_depth room_structure search_depth _ _ _ _ _ _ v hv with h | h
    · cases h
    · simpa using h

/-- Witness for C5 at the concrete search, with the cap hypothesis
discharged on a context already holding 300000 fingerprints. -/
theorem c5_witness :
    (reverse_playingCtx Sgrid Tgrid 3).explored.length ≤ 300000 ∧
    (∀ v ∈ (reverse_playingCtx Sgrid Tgrid 3).visits, v.acts.length < 3) ∧
    depth_first_search Tgrid 1 Sgrid [] 0 (-1, -1) [] cappedCtx = cappedCtx ∧
    depth_first_search Tgrid 5 Sgrid [] 0 (-1, -1) [] cappedCtx = cappedCtx := by
  have hcap : 300000 ≤ cappedCtx.explored.length := by
    rw [show cappedCtx.explored = List.replicate 300000 [] from rfl,
      List.length_replicate]
  have h := c5_search_bounds Sgrid Tgrid 3 5 Sgrid [] 0 (-1, -1) [] cappedCtx
  exact ⟨h.1, h.2.1, h.2.2.1, h.2.2.2 hcap⟩

/-! ### Claim C6 -/

/-- C6: the generator is deterministic — with the PRNG made explicit, two
calls with the same seed stream and the same parameters produce identical
structure grid, state grid, box mapping and action sequence (the whole
result, error or level, is a pure function of seed and parameters). -/
theorem c6_deterministic (dim : Nat × Nat) (pChange : ℚ)
    (numSteps numBoxes tries : Nat) (secondPlayer : Bool) (searchDepth : Nat)
    (g₁ g₂ : RNG) (h : g₁ = g₂) :
    generate_room dim pChange numSteps numBoxes tries secondPlayer searchDepth g₁
      = generate_room dim pChange numSteps numBoxes tries secondPlayer searchDepth g₂ := by
  rw [h]

/-- Witness for C6 at a concrete successful generation. -/
theorem c6_witness :
    generate_room (6, 6) 1 2 1 1 false 3 gWitness
      = generate_room (6, 6) 1 2 1 1 false 3 gWitness :=
  c6_deterministic (6, 6) 1 2 1 1 false 3 gWitness gWitness rfl

/-! ### Placement: counting specification -/

/-- The box loop places each box on a fresh floor cell: targets go up by
one per box, floors down by one, players are untouched. -/
theorem place_boxes_loop_spec (r c : Nat) :
    ∀ (n : Nat) (room : Grid) (g : RNG),
      gridShape room r c →
      n ≤ countVal room 1 →
      countVal (place_boxes_loop n room g).1 2 = countVal room 2 + n ∧
      countVal (place_boxes_loop n room g).1 5 = countVal room 5 ∧
      countVal (place_boxes_loop n room g).1 1 + n = countVal room 1 ∧
      gridShape (place_boxes_loop n room g).1 r c := by
  intro n
  induction n with
  | zero => intro room g hs _; exact ⟨by simp [place_boxes_loop], rfl, rfl, hs⟩
  | succ k ih =>
    intro room g hs hn
    simp only [place_boxes_loop]
    have hlen : 0 < (coordsOf room 1).length := by
      rw [coordsOf_length]
      omega
    have hind : (drawNat g (coordsOf room 1).length).1
        < (coordsOf room 1).length := Nat.mod_lt _ hlen
    obtain ⟨hinB, hval⟩ := coordsOf_getD_spec room 1 _ hind
    have h2 := countVal_setCell_change room _ 2 2 hinB (by omega) rfl
    have h5 := countVal_setCell_keep room _ 2 5 hinB (by omega) (by omega)
    have h1 := countVal_setCell_drop room _ 2 1 hinB hval (by omega)
    have hs' := setCell_shape room
      ((coordsOf room 1).getD (drawNat g (coordsOf room 1).length).1 (0, 0)) 2 r c hs
    obtain ⟨hr2, hr5, hr1, hrs⟩ := ih
      (setCell room ((coordsOf room 1).getD (drawNat g (coordsOf room 1).length).1 (0, 0)) 2)
      (drawNat g (coordsOf room 1).length).2 hs' (by omega)
    exact ⟨by omega, by omega, by omega, hrs⟩

/-- Entity counts of a successful placement: exactly `num_boxes` targets;
exactly one player cell without a second player, one or two with (one when
the two independent draws coincide). -/
theorem place_spec (room : Grid) (nB : Nat) (sp : Bool) (g : RNG) (r c : Nat)
    (hs : gridShape room r c)
    (hvals : ∀ w ∈ cellValues room, w = 0 ∨ w = 1) :
    ∀ room', (place_boxes_and_player room nB sp g).1 = .ok room' →
      countVal room' 2 = nB ∧
      (sp = false → countVal room' 5 = 1) ∧
      (sp = true → countVal room' 5 = 1 ∨ countVal room' 5 = 2) ∧
      gridShape room' r c := by
  have hc5 : countVal room 5 = 0 := countVal_eq_zero room 5
    (by intro w hw; rcases hvals w hw with h | h <;> omega)
  have hc2 : countVal room 2 = 0 := countVal_eq_zero room 2
    (by intro w hw; rcases hvals w hw with h | h <;> omega)
  intro room' h
  cases sp with
  | false =>
    simp only [place_boxes_and_player, Bool.false_eq_true, if_false] at h
    split at h
    · exact absurd h (by simp)
    · rename_i hguard
      rw [coordsOf_length] at hguard
      simp only at h
      injection h with h
      subst h
      have hlen : 0 < (coordsOf room 1).length := by
        rw [coordsOf_length]
        omega
      have hind : (drawNat g (coordsOf room 1).length).1
          < (coordsOf room 1).length := Nat.mod_lt _ hlen
      obtain ⟨hinB, hval⟩ := coordsOf_getD_spec room 1 _ hind
      have h2 := countVal_setCell_keep room _ 5 2 hinB (by omega) (by omega)
      have h5 := countVal_setCell_change room _ 5 5 hinB (by omega) rfl
      have h1 := countVal_setCell_drop room _ 5 1 hinB hval (by omega)
      have hs' := setCell_shape room
        ((coordsOf room 1).getD (drawNat g (coordsOf room 1).length).1 (0, 0)) 5 r c hs
      obtain ⟨hr2, hr5, hr1, hrs⟩ := place_boxes_loop_spec r c nB _
        (drawNat g (coordsOf room 1).length).2 hs' (by omega)
      refine ⟨by omega, fun _ => by omega, by simp, hrs⟩
  | true =>
    simp only [place_boxes_and_player, if_true] at h
    split at h
    · exact absurd h (by simp)
    · rename_i hguard
      rw [coordsOf_length] at hguard
      simp only at h
      injection h with h
      subst h
      have hlen : 0 < (coordsOf room 1).length := by
        rw [coordsOf_length]
        omega
      have hind1 : (drawNat g (coordsOf room 1).length).1
          < (coordsOf room 1).length := Nat.mod_lt _ hlen
      have hind2 : (drawNat (drawNat g (coordsOf room 1).length).2
            (coordsOf room 1).length).1
          < (coordsOf room 1).length := Nat.mod_lt _ hlen
      obtain ⟨hinB1, hval1⟩ := coordsOf_getD_spec room 1 _ hind1
      obtain ⟨hinB2, hval2⟩ := coordsOf_getD_spec room 1 _ hind2
      set q1 := (coordsOf room 1).getD (drawNat g (coordsOf room 1).length).1
        (0, 0) with hq1
      set q2 := (coordsOf room 1).getD
        ((drawNat (drawNat g (coordsOf room 1).length).2
          (coordsOf room 1).length).1) (0, 0) with hq2
      have ha2 := countVal_setCell_keep room q1 5 2 hinB1 (by omega) (by omega)
      have ha5 := countVal_setCell_change room q1 5 5 hinB1 (by omega) rfl
      have ha1 := countVal_setCell_drop room q1 5 1 hinB1 hval1 (by omega)
      have hs1 : gridShape (setCell room q1 5) r c := setCell_shape room q1 5 r c hs
      have hinB2' : inB (setCell room q1 5) q2 :=
        (inB_setCell room q1 q2 5 hinB1).mpr hinB2
      have hs2 : gridShape (setCell (setCell room q1 5) q2 5) r c :=
        setCell_shape _ q2 5 r c hs1
      by_cases hqq : q1 = q2
      · have hcell : getCell (setCell room q1 5) q2 = 5 := by
          rw [← hqq]
          exact getCell_setCell_self room q1 5 hinB1
        have hb2 := countVal_setCell_keep (setCell room q1 5) q2 5 2 hinB2'
          (by omega) (by omega)
        have hb5 := countVal_setCell_same (setCell room q1 5) q2 5 5 hinB2'
          hcell rfl
        have hb1 := countVal_setCell_keep (setCell room q1 5) q2 5 1 hinB2'
          (by omega) (by omega)
        obtain ⟨hr2, hr5, hr1, hrs⟩ := place_boxes_loop_spec r c nB _ _ hs2
          (by omega)
        refine ⟨by omega, by simp, fun _ => by omega, hrs⟩
      · have hcell : getCell (setCell room q1 5) q2 = 1 := by
          rw [getCell_setCell_ne room q1 q2 5 hinB1 hinB2 hqq]
          exact hval2
        have hb2 := countVal_setCell_keep (setCell room q1 5) q2 5 2 hinB2'
          (by omega) (by omega)
        have hb5 := countVal_setCell_change (setCell room q1 5) q2 5 5 hinB2'
          (by omega) rfl
        have hb1 := countVal_setCell_drop (setCell room q1 5) q2 5 1 hinB2'
          hcell (by omega)
        obtain ⟨hr2, hr5, hr1, hrs⟩ := place_boxes_loop_spec r c nB _ _ hs2
          (by omega)
        refine ⟨by omega, by simp, fun _ => by omega, hrs⟩

/-! ### Generic list access helpers -/

theorem list_getD_eq_getElem {α : Type _} (l : List α) (i : Nat) (d : α)
    (h : i < l.length) : l.getD i d = l[i] := by
  rw [List.getD_eq_getElem?_getD, List.getElem?_eq_getElem h]
  rfl

theorem list_getD_mem {α : Type _} (l : List α) (i : Nat) (d : α)
    (h : i < l.length) : l.getD i d ∈ l := by
  rw [list_getD_eq_getElem l i d h]
  exact List.getElem_mem h

/-- Under a fixed shape, being in bounds is a pure coordinate condition. -/
theorem inB_shape (g : Grid) (r c : Nat) (hs : gridShape g r c) (q : Pos) :
    inB g q ↔ 0 ≤ q.1 ∧ q.1 < (r : Int) ∧ 0 ≤ q.2 ∧ q.2 < (c : Int) := by
  obtain ⟨hr, hc⟩ := hs
  subst hr
  unfold inB
  constructor
  · rintro ⟨a1, a2, a3, a4⟩
    rw [list_getD_eq_getElem g _ _ (by omega), hc q.1.toNat (by omega)] at a4
    exact ⟨a1, a2, a3, a4⟩
  · rintro ⟨a1, a2, a3, a4⟩
    have hlen : q.1.toNat < g.length := by omega
    refine ⟨a1, a2, a3, ?_⟩
    rw [list_getD_eq_getElem g _ _ hlen, hc q.1.toNat hlen]
    exact a4

/-- The first `np.where` hit for the player code is an in-bounds cell
holding a 5. -/
theorem findPlayer_spec (g : Grid) (p : Pos) (h : findPlayer g = some p) :
    inB g p ∧ getCell g p = 5 := by
  unfold findPlayer at h
  cases hc : coordsOf g 5 with
  | nil => rw [hc] at h; cases h
  | cons q rest =>
    rw [hc] at h
    simp only [List.head?_cons, Option.some.injEq] at h
    have hmem : p ∈ coordsOf g 5 := by
      rw [hc, ← h]
      exact List.mem_cons_self _ _
    exact (mem_coordsOf g 5 p).mp hmem

/-! ### The post-generation randomizer (claim C9 machinery) -/

/-- Every valid move of the randomizer goes one step onto a floor or
empty-target cell not previously visited. -/
theorem validMovesFrom_spec (s : Grid) (pos : Pos) (prev : List Pos) :
    ∀ mv ∈ validMovesFrom s pos prev,
      (getCell s mv.2 = 1 ∨ getCell s mv.2 = 2) ∧ mv.2 ∉ prev ∧
      (mv.2.1 - pos.1).natAbs + (mv.2.2 - pos.2).natAbs = 1 := by
  intro mv hmv
  unfold validMovesFrom at hmv
  rw [List.mem_filterMap] at hmv
  obtain ⟨a, ha, hif⟩ := hmv
  dsimp only at hif
  split at hif
  · rename_i hcond
    injection hif with hif
    subst hif
    refine ⟨hcond.1, hcond.2, ?_⟩
    simp only [List.mem_cons, List.mem_singleton] at ha
    rcases ha with rfl | rfl | rfl | rfl | h
    · simp [changeCoordinates]
    · simp [changeCoordinates]
    · simp [changeCoordinates]
    · simp [changeCoordinates]
    · cases h
  · cases hif

/-- The inductive specification of the randomizer's walk: the result
differs from the input only by relocating the player along visited
floor/target cells (vacated cells restored to their structural value),
the final player cell lies within `fuel` steps of the start, and the
shape is preserved. -/
theorem movePlayerLoop_spec (rs : Grid) (cp : ℚ) (r c : Nat) :
    ∀ (fuel : Nat) (s : Grid) (pos : Pos) (prev : List Pos) (g : RNG),
      gridShape s r c →
      inB s pos → getCell s pos = 5 → interiorPos r c pos →
      (∀ q, inB s q →
        getCell s q = 1 ∨ getCell s q = 2 ∨ getCell s q = 5 →
        interiorPos r c q) →
      (∀ q, inB s q → getCell s q = 1 ∨ getCell s q = 2 →
        getCell rs q = getCell s q) →
      (∀ q, inB s q →
        (getCell (movePlayerLoop rs cp fuel s pos prev g).1 q ≠ getCell s q →
          (getCell s q = 5 ∧
            getCell (movePlayerLoop rs cp fuel s pos prev g).1 q = getCell rs q) ∨
          ((getCell s q = 1 ∨ getCell s q = 2) ∧
            getCell (movePlayerLoop rs cp fuel s pos prev g).1 q = 5)) ∧
        (getCell (movePlayerLoop rs cp fuel s pos prev g).1 q = getCell s q ∨
          getCell (movePlayerLoop rs cp fuel s pos prev g).1 q = getCell rs q ∨
          getCell (movePlayerLoop rs cp fuel s pos prev g).1 q = 5)) ∧
      (∃ pf, inB s pf ∧
        getCell (movePlayerLoop rs cp fuel s pos prev g).1 pf = 5 ∧
        (pf.1 - pos.1).natAbs + (pf.2 - pos.2).natAbs ≤ fuel) ∧
      gridShape (movePlayerLoop rs cp fuel s pos prev g).1 r c := by
  intro fuel
  induction fuel with
  | zero =>
    intro s pos prev g hs hpos h5 hintp hint hcoh
    refine ⟨?_, ⟨pos, hpos, h5, by simp⟩, hs⟩
    intro q hq
    exact ⟨fun hne => absurd rfl hne, Or.inl rfl⟩
  | succ fuel ih =>
    intro s pos prev g hs hpos h5 hintp hint hcoh
    simp only [movePlayerLoop]
    split
    · refine ⟨?_, ⟨pos, hpos, h5, by simp⟩, hs⟩
      intro q hq
      exact ⟨fun hne => absurd rfl hne, Or.inl rfl⟩
    · rename_i hvalid
      have hlen : 0 < (validMovesFrom s pos prev).length :=
        Nat.pos_of_ne_zero hvalid
      have hind : (drawNat g (validMovesFrom s pos prev).length).1
          < (validMovesFrom s pos prev).length := Nat.mod_lt _ hlen
      have hmem := list_getD_mem (validMovesFrom s pos prev)
        (drawNat g (validMovesFrom s pos prev).length).1 (0, pos) hind
      obtain ⟨hnp12, hnpprev, hnpdist⟩ := validMovesFrom_spec s pos prev _ hmem
      set np := ((validMovesFrom s pos prev).getD
        (drawNat g (validMovesFrom s pos prev).length).1 (0, pos)).2 with hnpdef
      have hnpinB : inB s np := by
        rw [inB_shape s r c hs]
        obtain ⟨i1, i2, i3, i4⟩ := hintp
        refine ⟨by omega, by omega, by omega, by omega⟩
      have hnpint : interiorPos r c np := by
        apply hint np hnpinB
        rcases hnp12 with h | h
        · exact Or.inl h
        · exact Or.inr (Or.inl h)
      have hne_pos_np : pos ≠ np := by
        intro he
        rw [← he] at hnpdist
        simp at hnpdist
      set s1 := setCell s pos (getCell rs pos) with hs1def
      set s2 := setCell s1 np 5 with hs2def
      have hinB1 : ∀ q, inB s1 q ↔ inB s q := fun q =>
        inB_setCell s pos q _ hpos
      have hnpinB1 : inB s1 np := (hinB1 np).mpr hnpinB
      have hinB2 : ∀ q, inB s2 q ↔ inB s q := fun q =>
        (inB_setCell s1 np q 5 hnpinB1).trans (hinB1 q)
      have hs2shape : gridShape s2 r c :=
        setCell_shape _ _ _ _ _ (setCell_shape _ _ _ _ _ hs)
      have hg_pos : getCell s2 pos = getCell rs pos := by
        rw [hs2def, getCell_setCell_ne s1 np pos 5 hnpinB1
          ((hinB1 pos).mpr hpos) (fun he => hne_pos_np he.symm)]
        rw [hs1def, getCell_setCell_self s pos _ hpos]
      have hg_np : getCell s2 np = 5 := getCell_setCell_self s1 np 5 hnpinB1
      have hg_other : ∀ q, inB s q → q ≠ pos → q ≠ np →
          getCell s2 q = getCell s q := by
        intro q hq hq1 hq2
        rw [hs2def, getCell_setCell_ne s1 np q 5 hnpinB1 ((hinB1 q).mpr hq)
          (fun he => hq2 he.symm)]
        rw [hs1def, getCell_setCell_ne s pos q _ hpos hq
          (fun he => hq1 he.symm)]
      have hint' : ∀ q, inB s2 q →
          getCell s2 q = 1 ∨ getCell s2 q = 2 ∨ getCell s2 q = 5 →
          interiorPos r c q := by
        intro q hq hv
        rw [hinB2 q] at hq
        by_cases h1 : q = pos
        · exact h1 ▸ hintp
        · by_cases h2 : q = np
          · exact h2 ▸ hnpint
          · rw [hg_other q hq h1 h2] at hv
            exact hint q hq hv
      have hcoh' : ∀ q, inB s2 q → getCell s2 q = 1 ∨ getCell s2 q = 2 →
          getCell rs q = getCell s2 q := by
        intro q hq hv
        rw [hinB2 q] at hq
        by_cases h1 : q = pos
        · rw [h1, hg_pos]
        · by_cases h2 : q = np
          · rw [h2, hg_np] at hv
            rcases hv with h | h <;> omega
          · rw [hg_other q hq h1 h2] at hv ⊢
            exact hcoh q hq hv
      have hchg : ∀ q, inB s q → getCell s2 q ≠ getCell s q →
          (getCell s q = 5 ∧ getCell s2 q = getCell rs q) ∨
          ((getCell s q = 1 ∨ getCell s q = 2) ∧ getCell s2 q = 5) := by
        intro q hq hne
        by_cases h1 : q = pos
        · subst h1
          exact Or.inl ⟨h5, hg_pos⟩
        · by_cases h2 : q = np
          · subst h2
            exact Or.inr ⟨hnp12, hg_np⟩
          · exact absurd (hg_other q hq h1 h2) hne
      have hstep : ∀ q, inB s q →
          (getCell s2 q ≠ getCell s q →
            (getCell s q = 5 ∧ getCell s2 q = getCell rs q) ∨
            ((getCell s q = 1 ∨ getCell s q = 2) ∧ getCell s2 q = 5)) ∧
          (getCell s2 q = getCell s q ∨ getCell s2 q = getCell rs q ∨
            getCell s2 q = 5) := by
        intro q hq
        refine ⟨hchg q hq, ?_⟩
        by_cases h1 : q = pos
        · subst h1
          exact Or.inr (Or.inl hg_pos)
        · by_cases h2 : q = np
          · subst h2
            exact Or.inr (Or.inr hg_np)
          · exact Or.inl (hg_other q hq h1 h2)
      split
      · refine ⟨?_, ⟨np, hnpinB, hg_np, by omega⟩, hs2shape⟩
        intro q hq
        exact hstep q hq
      · split
        · refine ⟨?_, ⟨np, hnpinB, hg_np, by omega⟩, hs2shape⟩
          intro q hq
          exact hstep q hq
        · obtain ⟨ihframe, ihpf, ihshape⟩ := ih s2 np (prev ++ [np]) _
            hs2shape ((hinB2 np).mpr hnpinB) hg_np hnpint hint' hcoh'
          refine ⟨?_, ?_, ihshape⟩
          · intro q hq
            have hq2 : inB s2 q := (hinB2 q).mpr hq
            obtain ⟨ihc, ihr⟩ := ihframe q hq2
            constructor
            · intro hne
              by_cases hch2 : getCell (movePlayerLoop rs cp fuel s2 np
                  (prev ++ [np]) (drawQ (drawNat g (validMovesFrom s pos
                    prev).length).2).2).1 q = getCell s2 q
              · rcases hchg q hq (by rw [← hch2]; exact hne) with h | h
                · exact Or.inl ⟨h.1, by rw [hch2, h.2]⟩
                · exact Or.inr ⟨h.1, by rw [hch2, h.2]⟩
              · rcases ihc hch2 with ⟨hs2q5, hresrs⟩ | ⟨hs2q12, hres5⟩
                · by_cases h1 : q = pos
                  · subst h1
                    exact Or.inl ⟨h5, hresrs⟩
                  · by_cases h2 : q = np
                    · subst h2
                      exact absurd (by rw [hresrs, hcoh np hnpinB hnp12])
                        hne
                    · refine Or.inl ⟨?_, hresrs⟩
                      rw [← hg_other q hq h1 h2]
                      exact hs2q5
                · by_cases h1 : q = pos
                  · subst h1
                    exact absurd (by rw [hres5, h5]) hne
                  · by_cases h2 : q = np
                    · subst h2
                      rw [hg_np] at hs2q12
                      rcases hs2q12 with h | h <;> omega
                    · refine Or.inr ⟨?_, hres5⟩
                      rw [← hg_other q hq h1 h2]
                      exact hs2q12
            · rcases ihr with h | h | h
              · by_cases h1 : q = pos
                · subst h1
                  rw [h, hg_pos]
                  exact Or.inr (Or.inl rfl)
                · by_cases h2 : q = np
                  · subst h2
                    rw [h, hg_np]
                    exact Or.inr (Or.inr rfl)
                  · rw [h, hg_other q hq h1 h2]
                    exact Or.inl rfl
              · exact Or.inr (Or.inl h)
              · exact Or.inr (Or.inr h)
          · obtain ⟨pf, hpfB, hpf5, hpfd⟩ := ihpf
            exact ⟨pf, (hinB2 pf).mp hpfB, hpf5, by omega⟩

/-- Bounded reformulation of quantification over in-bounds positions. -/
theorem forall_inB_iff (g : Grid) (r c : Nat) (hs : gridShape g r c)
    (P : Pos → Prop) :
    (∀ q, inB g q → P q) ↔
      ∀ i, i < r → ∀ j, j < c → P ((i : Int), (j : Int)) := by
  constructor
  · intro h i hi j hj
    apply h
    rw [inB_shape g r c hs]
    refine ⟨by simp, by simpa using hi, by simp, by simpa using hj⟩
  · intro h q hq
    rw [inB_shape g r c hs] at hq
    obtain ⟨a1, a2, a3, a4⟩ := hq
    have hq' : q = ((q.1.toNat : Int), (q.2.toNat : Int)) := by
      rw [Prod.ext_iff]
      constructor <;> simp <;> omega
    rw [hq']
    exact h q.1.toNat (by omega) q.2.toNat (by omega)

/-- The move probability is 0.8 for displacement score 1 and 0.5
otherwise. -/
theorem moveProbability_eq (m : Mapping) :
    moveProbability m
      = if box_displacement_score m = 1 then (4 : ℚ) / 5 else 1 / 2 := by
  unfold moveProbability
  split <;> rw [Rat.mkRat_eq_div] <;> norm_num

/-! ### Claim C9 -/

/-- C9: the randomization pass changes only the player's position.  Every
box or wall cell keeps its value; a cell that changes is either the
vacated player cell, restored to its structural value, or a floor or
empty-target cell that now carries the player; the final player cell lies
at most `max_steps` (3 at the call site) steps from the original player;
when the entry draw exceeds `move_probability` the state is returned
untouched; and the move probability used by `generate_room` is 0.8 when
the accepted displacement score is 1 and 0.5 otherwise.  The structure
grid is only read (the embedding takes and returns it nowhere). -/
theorem c9_randomizer (s rs : Grid) (mp cp : ℚ) (ms : Nat) (g : RNG)
    (r c : Nat) (hs : gridShape s r c)
    (hint : ∀ q, inB s q →
      getCell s q = 1 ∨ getCell s q = 2 ∨ getCell s q = 5 → interiorPos r c q)
    (hcoh : ∀ q, inB s q → getCell s q = 1 ∨ getCell s q = 2 →
      getCell rs q = getCell s q) :
    (∀ q, inB s q → getCell s q = 0 ∨ getCell s q = 3 ∨ getCell s q = 4 →
      getCell (add_random_player_movement s rs mp cp ms g).1 q = getCell s q) ∧
    (∀ q, inB s q →
      getCell (add_random_player_movement s rs mp cp ms g).1 q ≠ getCell s q →
      (getCell s q = 5 ∧
        getCell (add_random_player_movement s rs mp cp ms g).1 q = getCell rs q) ∨
      ((getCell s q = 1 ∨ getCell s q = 2) ∧
        getCell (add_random_player_movement s rs mp cp ms g).1 q = 5)) ∧
    (∀ p0, findPlayer s = some p0 →
      ∃ pf, getCell (add_random_player_movement s rs mp cp ms g).1 pf = 5 ∧
        (pf.1 - p0.1).natAbs + (pf.2 - p0.2).natAbs ≤ ms) ∧
    (mp < (drawQ g).1 → (add_random_player_movement s rs mp cp ms g).1 = s) ∧
    (∀ m : Mapping, moveProbability m
      = if box_displacement_score m = 1 then (4 : ℚ) / 5 else 1 / 2) := by
  by_cases hdq : mp < (drawQ g).1
  · have hres : (add_random_player_movement s rs mp cp ms g).1 = s := by
      simp only [add_random_player_movement, if_pos hdq]
    refine ⟨?_, ?_, ?_, fun _ => hres, fun m => moveProbability_eq m⟩
    · intro q hq _
      rw [hres]
    · intro q hq hne
      rw [hres] at hne
      exact absurd rfl hne
    · intro p0 hfp
      obtain ⟨hpB, hp5⟩ := findPlayer_spec s p0 hfp
      exact ⟨p0, by rw [hres]; exact hp5, by simp⟩
  · cases hfp : findPlayer s with
    | none =>
      have hres : (add_random_player_movement s rs mp cp ms g).1 = s := by
        simp only [add_random_player_movement, if_neg hdq, hfp]
      refine ⟨?_, ?_, ?_, fun hq => absurd hq hdq, fun m => moveProbability_eq m⟩
      · intro q hq _
        rw [hres]
      · intro q hq hne
        rw [hres] at hne
        exact absurd rfl hne
      · intro p0 hfp0
        cases hfp0
    | some p =>
      obtain ⟨hpB, hp5⟩ := findPlayer_spec s p hfp
      have hpint : interiorPos r c p := hint p hpB (Or.inr (Or.inr hp5))
      have hres : (add_random_player_movement s rs mp cp ms g).1
          = (movePlayerLoop rs cp ms s p [p] (drawQ g).2).1 := by
        simp only [add_random_player_movement, if_neg hdq, hfp]
      obtain ⟨hframe, hpf, _⟩ := movePlayerLoop_spec rs cp r c ms s p [p]
        (drawQ g).2 hs hpB hp5 hpint hint hcoh
      refine ⟨?_, ?_, ?_, fun hq => absurd hq hdq, fun m => moveProbability_eq m⟩
      · intro q hq hval
        rw [hres]
        by_cases hch : getCell (movePlayerLoop rs cp ms s p [p] (drawQ g).2).1 q
            = getCell s q
        · exact hch
        · rcases (hframe q hq).1 hch with ⟨h5', _⟩ | ⟨h12, _⟩ <;> omega
      · intro q hq
        rw [hres]
        exact (hframe q hq).1
      · intro p0 hfp0
        injection hfp0 with hfp0
        subst hfp0
        obtain ⟨pf, _, hpf5, hdist⟩ := hpf
        exact ⟨pf, by rw [hres]; exact hpf5, hdist⟩

/-- Witness for C9 on the concrete accepted level of the `gWitness` run. -/
theorem c9_witness :
    (∀ q, inB C9state q →
      getCell C9state q = 0 ∨ getCell C9state q = 3 ∨ getCell C9state q = 4 →
      getCell (add_random_player_movement C9state C9struct (4/5) (1/2) 3
        ⟨[0], [0, 1]⟩).1 q = getCell C9state q) ∧
    (∀ q, inB C9state q →
      getCell (add_random_player_movement C9state C9struct (4/5) (1/2) 3
        ⟨[0], [0, 1]⟩).1 q ≠ getCell C9state q →
      (getCell C9state q = 5 ∧
        getCell (add_random_player_movement C9state C9struct (4/5) (1/2) 3
          ⟨[0], [0, 1]⟩).1 q = getCell C9struct q) ∨
      ((getCell C9state q = 1 ∨ getCell C9state q = 2) ∧
        getCell (add_random_player_movement C9state C9struct (4/5) (1/2) 3
          ⟨[0], [0, 1]⟩).1 q = 5)) ∧
    (∀ p0, findPlayer C9state = some p0 →
      ∃ pf, getCell (add_random_player_movement C9state C9struct (4/5) (1/2) 3
          ⟨[0], [0, 1]⟩).1 pf = 5 ∧
        (pf.1 - p0.1).natAbs + (pf.2 - p0.2).natAbs ≤ 3) ∧
    ((4/5 : ℚ) < (drawQ ⟨[0], [0, 1]⟩).1 →
      (add_random_player_movement C9state C9struct (4/5) (1/2) 3
        ⟨[0], [0, 1]⟩).1 = C9state) ∧
    (∀ m : Mapping, moveProbability m
      = if box_displacement_score m = 1 then (4 : ℚ) / 5 else 1 / 2) :=
  c9_randomizer C9state C9struct (4/5) (1/2) 3 ⟨[0], [0, 1]⟩ 6 6
    (by decide)
    ((forall_inB_iff C9state 6 6 (by decide) _).mpr (by decide))
    ((forall_inB_iff C9state 6 6 (by decide) _).mpr (by decide))

/-! ### Claim C3 -/

/-- C3, counterexample: with a second player requested, the second draw is
taken from the floor list computed before the first player was placed, so
both draws can pick the same cell — this successful call leaves exactly
one player cell, not the two the claim demands. -/
theorem c3_counterexample :
    (place_boxes_and_player C3room 1 true C3g).1.isOk = true ∧
    okPlayerCount (place_boxes_and_player C3room 1 true C3g).1 = 1 := by
  constructor
  · decide
  · decide

/-- C3 (amended): in every successful call to `place_boxes_and_player` on
a floor/wall grid, the `N` target cells are placed on distinct floor
cells, sampled without replacement and distinct from the player cells
(exactly `num_boxes` target cells result); the player cell count is
exactly 1 without a second player, and 1 or 2 when a second player is
requested, because the second player's draw is taken with replacement
from the pre-placement floor list and may coincide with the first. -/
theorem c3_placement_counts (room : Grid) (nB : Nat) (sp : Bool) (g : RNG)
    (r c : Nat) (hs : gridShape room r c)
    (hvals : ∀ w ∈ cellValues room, w = 0 ∨ w = 1) (room' : Grid)
    (h : (place_boxes_and_player room nB sp g).1 = .ok room') :
    countVal room' 2 = nB ∧
    (sp = false → countVal room' 5 = 1) ∧
    (sp = true → countVal room' 5 = 1 ∨ countVal room' 5 = 2) :=
  have s := place_spec room nB sp g r c hs hvals room' h
  ⟨s.1, s.2.1, s.2.2.1⟩

/-- Witness for C3's amended theorem on a concrete placement. -/
theorem c3_witness :
    countVal C3roomPlaced 2 = 1 ∧
    (false = false → countVal C3roomPlaced 5 = 1) ∧
    (false = true → countVal C3roomPlaced 5 = 1 ∨ countVal C3roomPlaced 5 = 2) :=
  c3_placement_counts C3room 1 false C3g 4 5 (by decide) (by decide)
    C3roomPlaced (by decide)

/-! ### Claim C4 -/

/-- The only error `place_boxes_and_player` raises is the
placement-capacity error. -/
theorem place_error_shape (room : Grid) (nB : Nat) (sp : Bool) (g : RNG) :
    ∀ e, (place_boxes_and_player room nB sp g).1 = .error e →
      ∃ a b c, e = GenError.placementCapacity a b c := by
  intro e h
  simp only [place_boxes_and_player] at h
  split at h <;> split at h <;>
    first
      | (simp only at h; injection h with h; exact ⟨_, _, _, h.symm⟩)
      | (exact absurd h (by simp))

/-- The only error one attempt can produce is a placement-capacity error. -/
theorem attemptOnce_error (dim : Nat × Nat) (pCh : ℚ) (nS nB : Nat) (sp : Bool)
    (sd : Nat) (g : RNG) :
    ∀ e, (attemptOnce dim pCh nS nB sp sd g).1 = .error e →
      ∃ a b c, e = GenError.placementCapacity a b c := by
  intro e h
  simp only [attemptOnce] at h
  split at h
  · rename_i e1 heq
    simp only at h
    injection h with h
    subst h
    exact place_error_shape _ _ _ _ e1 heq
  · exact absurd h (by simp)

/-- A level returned by the acceptance loop always has strictly positive
displacement score. -/
theorem attemptLoop_ok_score (dim : Nat × Nat) (pCh : ℚ) (nS nB : Nat)
    (sp : Bool) (sd : Nat) :
    ∀ (tries : Nat) (g : RNG) (L : LevelData),
      (attemptLoop dim pCh nS nB sp sd tries g).1 = .ok L →
      0 < box_displacement_score L.box_mapping := by
  intro tries
  induction tries with
  | zero => intro g L h; exact absurd h (by simp [attemptLoop])
  | succ t ih =>
    intro g L h
    simp only [attemptLoop] at h
    split at h
    · exact absurd h (by simp)
    · rename_i L1 heq
      split at h
      · rename_i hpos
        simp only at h
        injection h with h
        rw [← h]
        exact hpos
      · exact ih _ _ h

/-- The acceptance loop raises the degenerate-generation error exactly
when all its attempts complete with displacement score 0. -/
theorem attemptLoop_degenerate_iff (dim : Nat × Nat) (pCh : ℚ) (nS nB : Nat)
    (sp : Bool) (sd : Nat) :
    ∀ (tries : Nat) (g : RNG), 1 ≤ tries →
      ((attemptLoop dim pCh nS nB sp sd tries g).1 = .error .degenerateScore ↔
        allAttemptsZero dim pCh nS nB sp sd tries g) := by
  intro tries
  induction tries with
  | zero => intro g h; omega
  | succ t ih =>
    intro g _
    simp only [attemptLoop, allAttemptsZero]
    split
    · rename_i e heq
      constructor
      · intro h
        simp only at h
        injection h with h
        rcases attemptOnce_error dim pCh nS nB sp sd g e heq with ⟨a, b, c, he⟩
        rw [he] at h
        cases h
      · intro h
        cases h
    · rename_i L heq
      split
      · rename_i hpos
        constructor
        · intro h
          exact absurd h (by simp)
        · intro h
          omega
      · rename_i hneg
        cases t with
        | zero =>
          constructor
          · intro _
            exact ⟨by omega, by simp [allAttemptsZero]⟩
          · intro _
            simp [attemptLoop]
        | succ t' =>
          rw [ih _ (by omega)]
          constructor
          · intro h
            exact ⟨by omega, h⟩
          · intro h
            exact h.2

/-- C4: `generate_room` raises the degenerate-generation error exactly
when every one of its `tries` attempts completes with displacement score
0 (a placement failure instead propagates as the distinct
placement-capacity error); and whenever it returns normally the accepted
level's displacement score is strictly positive.  Failures carry no level
data (the result is an `Except`), so no partial result is returned. -/
theorem c4_acceptance (dim : Nat × Nat) (pCh : ℚ) (nS nB tries : Nat)
    (sp : Bool) (sd : Nat) (g : RNG) (htries : 1 ≤ tries) :
    ((generate_room dim pCh nS nB tries sp sd g).1 = .error .degenerateScore ↔
      allAttemptsZero dim pCh nS nB sp sd tries g) ∧
    (∀ L, (generate_room dim pCh nS nB tries sp sd g).1 = .ok L →
      0 < box_displacement_score L.box_mapping) := by
  constructor
  · rw [← attemptLoop_degenerate_iff dim pCh nS nB sp sd tries g htries]
    simp only [generate_room]
    split
    · rename_i e heq
      rw [heq]
    · rename_i L heq
      rw [heq]
      simp
  · intro L h
    simp only [generate_room] at h
    split at h
    · exact absurd h (by simp)
    · rename_i L1 heq
      simp only at h
      injection h with h
      have hbm : L.box_mapping = L1.box_mapping := by rw [← h]
      rw [hbm]
      exact attemptLoop_ok_score dim pCh nS nB sp sd tries g L1 heq

/-- Witness for C4 at the concrete successful generation. -/
theorem c4_witness :
    ((generate_room (6, 6) 1 2 1 1 false 3 gWitness).1 = .error .degenerateScore ↔
      allAttemptsZero (6, 6) 1 2 1 false 3 1 gWitness) ∧
    (∀ L, (generate_room (6, 6) 1 2 1 1 false 3 gWitness).1 = .ok L →
      0 < box_displacement_score L.box_mapping) :=
  c4_acceptance (6, 6) 1 2 1 1 false 3 gWitness (by omega)

/-! ### Claim C7 -/

/-- The placement-capacity error of `place_boxes_and_player`, with the
counts it carries, fires exactly when the floor-cell count is at most
`num_boxes + num_players`. -/
theorem place_capacity_error_iff (room : Grid) (nB : Nat) (sp : Bool) (g : RNG) :
    ((place_boxes_and_player room nB sp g).1
        = .error (.placementCapacity (countVal room 1) (if sp then 2 else 1) nB))
      ↔ countVal room 1 ≤ nB + (if sp then 2 else 1) := by
  rw [← coordsOf_length room 1]
  simp only [place_boxes_and_player]
  split <;> split <;> simp_all

/-- Boolean form: the call fails with a placement-capacity error iff the
floor-cell count is at most `num_boxes + num_players`. -/
theorem place_capacity_iff (room : Grid) (nB : Nat) (sp : Bool) (g : RNG) :
    isPlacementErrorRoom (place_boxes_and_player room nB sp g).1 = true
      ↔ countVal room 1 ≤ nB + (if sp then 2 else 1) := by
  rw [← coordsOf_length room 1]
  simp only [place_boxes_and_player]
  split <;> split <;> simp_all [isPlacementErrorRoom]

/-- A placement error in an attempt propagates out of `attemptOnce`. -/
theorem attemptOnce_propagates (dim : Nat × Nat) (pCh : ℚ) (nS nB : Nat)
    (sp : Bool) (sd : Nat) (g : RNG) (e : GenError)
    (h : (place_boxes_and_player (room_topology_generation dim pCh nS g).1 nB sp
        (room_topology_generation dim pCh nS g).2).1 = .error e) :
    (attemptOnce dim pCh nS nB sp sd g).1 = .error e := by
  simp only [attemptOnce]
  rw [h]

/-- An attempt error propagates out of the acceptance loop. -/
theorem attemptLoop_propagates (dim : Nat × Nat) (pCh : ℚ) (nS nB : Nat)
    (sp : Bool) (sd t : Nat) (g : RNG) (e : GenError)
    (h : (attemptOnce dim pCh nS nB sp sd g).1 = .error e) :
    (attemptLoop dim pCh nS nB sp sd (t + 1) g).1 = .error e := by
  simp only [attemptLoop]
  rw [h]

/-- An acceptance-loop error propagates out of `generate_room`. -/
theorem generate_room_propagates (dim : Nat × Nat) (pCh : ℚ)
    (nS nB tries : Nat) (sp : Bool) (sd : Nat) (g : RNG) (e : GenError)
    (h : (attemptLoop dim pCh nS nB sp sd tries g).1 = .error e) :
    (generate_room dim pCh nS nB tries sp sd g).1 = .error e := by
  simp only [generate_room]
  rw [h]

/-- C7: `place_boxes_and_player` raises the placement-capacity error (with
the floor, player and box counts it reports) exactly when the number of
floor cells is at most `num_boxes + num_players`; the guard runs before
any cell is written, so the room grid is untouched on failure (in the
embedding, the error branch returns before any `setCell`).  In
particular, generation on a 4×4 grid with 20 boxes always fails with this
error: a 4×4 topology has at most 16 floor cells, below the 21 required. -/
theorem c7_placement_capacity (room : Grid) (nB : Nat) (sp : Bool)
    (g g' : RNG) (pCh : ℚ) (nS tries sd : Nat) (htries : 1 ≤ tries) :
    (isPlacementErrorRoom (place_boxes_and_player room nB sp g).1 = true
      ↔ countVal room 1 ≤ nB + (if sp then 2 else 1)) ∧
    ((place_boxes_and_player room nB sp g).1
        = .error (.placementCapacity (countVal room 1) (if sp then 2 else 1) nB)
      ↔ countVal room 1 ≤ nB + (if sp then 2 else 1)) ∧
    isPlacementError (generate_room (4, 4) pCh nS 20 tries false sd g').1 = true := by
  refine ⟨place_capacity_iff room nB sp g, place_capacity_error_iff room nB sp g, ?_⟩
  obtain ⟨t, rfl⟩ : ∃ t, tries = t + 1 := ⟨tries - 1, by omega⟩
  have hcount : countVal (room_topology_generation (4, 4) pCh nS g').1 1 ≤ 16 :=
    countVal_le_of_shape _ 4 4 1 (topology_shape (4, 4) pCh nS g')
  have hplace := (place_capacity_error_iff
    (room_topology_generation (4, 4) pCh nS g').1 20 false
    (room_topology_generation (4, 4) pCh nS g').2).mpr (by simpa using by omega)
  have h1 := attemptOnce_propagates (4, 4) pCh nS 20 false sd g' _ hplace
  have h2 := attemptLoop_propagates (4, 4) pCh nS 20 false sd t g' _ h1
  have h3 := generate_room_propagates (4, 4) pCh nS 20 (t + 1) false sd g' _ h2
  rw [h3]
  rfl

/-- Witness for C7 at concrete inputs. -/
theorem c7_witness :
    (isPlacementErrorRoom (place_boxes_and_player C3room 1 true C3g).1 = true
      ↔ countVal C3room 1 ≤ 1 + (if true then 2 else 1)) ∧
    ((place_boxes_and_player C3room 1 true C3g).1
        = .error (.placementCapacity (countVal C3room 1) (if true then 2 else 1) 1)
      ↔ countVal C3room 1 ≤ 1 + (if true then 2 else 1)) ∧
    isPlacementError (generate_room (4, 4) 1 2 20 1 false 3 gWitness).1 = true :=
  c7_placement_capacity C3room 1 true C3g gWitness 1 2 1 3 (by omega)

/-! ### Claim C8 -/

/-- The dict-update loop of `reverse_move` rewrites values only: the key
list is untouched. -/
theorem updateMapping_keys (m : Mapping) (o n lp : Pos) :
    ((updateMapping m o n lp).1).map Prod.fst = m.map Prod.fst := by
  simp only [updateMapping]
  induction m with
  | nil => rfl
  | cons kv rest ih =>
    simp only [List.map_cons, List.cons.injEq]
    exact ⟨by split <;> rfl, ih⟩

/-- `reverse_move` never adds or removes a mapping key. -/
theorem reverse_move_keys (s rs : Grid) (m : Mapping) (lp : Pos) (a : Nat) :
    ((reverse_move s rs m lp a).2.1).map Prod.fst = m.map Prod.fst := by
  unfold reverse_move
  cases findPlayer s with
  | none => rfl
  | some p =>
    dsimp only
    split
    · split
      · split
        · exact updateMapping_keys m _ _ lp
        · rfl
      · rfl
    · rfl

/-- Through the whole search, the best mapping's key list never changes. -/
theorem dfs_bestMapping_keys (rs : Grid) (K : List Pos) :
    ∀ (fuel : Nat) (s : Grid) (m : Mapping) (sw : Nat) (lp : Pos)
      (acts : List Nat) (ctx : SearchCtx),
      m.map Prod.fst = K →
      ctx.bestMapping.map Prod.fst = K →
      ((depth_first_search rs fuel s m sw lp acts ctx).bestMapping).map Prod.fst
        = K := by
  intro fuel
  induction fuel with
  | zero => intro s m sw lp acts ctx _ hctx; exact hctx
  | succ t ih =>
    intro s m sw lp acts ctx hm hctx
    simp only [depth_first_search]
    split
    · exact hctx
    · split
      · exact hctx
      · have hvisit : ((visitCtx ctx s m sw acts).bestMapping).map Prod.fst = K := by
          rcases visitCtx_best ctx s m sw acts with h | h
          · rw [h.2.1, hm]
          · rw [h.2.1, hctx]
        apply ih _ _ _ _ _ _ (by rw [reverse_move_keys, hm])
        apply ih _ _ _ _ _ _ (by rw [reverse_move_keys, hm])
        apply ih _ _ _ _ _ _ (by rw [reverse_move_keys, hm])
        exact ih _ _ _ _ _ _ (by rw [reverse_move_keys, hm]) hvisit

/-- C8: throughout one `reverse_playing` search the key set of
`box_mapping` is exactly the row-major list of target coordinates of the
structure grid (the mapping is initialised as the identity on them), its
size equals the box count recorded by the search, and `reverse_move` only
reassigns values of existing keys, never adding or removing a key. -/
theorem c8_mapping_keys (room_state room_structure : Grid)
    (search_depth : Nat) :
    ((reverse_playing room_state room_structure search_depth).2.1).map Prod.fst
        = coordsOf room_structure 2 ∧
    (reverse_playing room_state room_structure search_depth).2.1.length
        = (coordsOf room_structure 2).length ∧
    (reverse_playingCtx room_state room_structure search_depth).numBoxes
        = (coordsOf room_structure 2).length ∧
    (∀ (s : Grid) (m : Mapping) (lp : Pos) (a : Nat),
      ((reverse_move s room_structure m lp a).2.1).map Prod.fst
        = m.map Prod.fst) := by
  have hinit : ((coordsOf room_structure 2).map fun t => (t, t)).map
      (Prod.fst (α := Pos) (β := Pos)) = coordsOf room_structure 2 := by
    rw [List.map_map]
    exact List.map_id _
  have hkeys : ((reverse_playing room_state room_structure search_depth).2.1).map
      Prod.fst = coordsOf room_structure 2 := by
    simp only [reverse_playing, reverse_playingCtx]
    exact dfs_bestMapping_keys room_structure _ _ _ _ _ _ _ _ hinit hinit
  refine ⟨hkeys, ?_, ?_, fun s m lp a => reverse_move_keys s room_structure m lp a⟩
  · have := congrArg List.length hkeys
    rwa [List.length_map] at this
  · have hn : (depth_first_search room_structure search_depth room_state
        ((coordsOf room_structure 2).map fun t => (t, t)) 0 (-1, -1) []
        ⟨[], -1, room_state, (coordsOf room_structure 2).map fun t => (t, t),
          [], (coordsOf room_structure 2).length, []⟩).numBoxes
        = (coordsOf room_structure 2).length := by
      rw [dfs_numBoxes]
    exact hn

/-! ### Cell-value ranges (claim C10 machinery) -/

/-- Out-of-range `getD` returns the default. -/
theorem list_getD_oob {α : Type _} (l : List α) (i : Nat) (d : α)
    (h : ¬ i < l.length) : l.getD i d = d := by
  rw [List.getD_eq_getElem?_getD, List.getElem?_eq_none (by omega)]
  rfl

/-- A cell read is either a stored value or the out-of-range default 0. -/
theorem getCell_mem (g : Grid) (p : Pos) :
    getCell g p = 0 ∨ getCell g p ∈ cellValues g := by
  simp only [getCell]
  by_cases hi : npIdx g.length p.1 < g.length
  · have hrowmem : g.getD (npIdx g.length p.1) [] ∈ g := list_getD_mem _ _ _ hi
    generalize hrow : g.getD (npIdx g.length p.1) [] = row at hrowmem ⊢
    by_cases hj : npIdx row.length p.2 < row.length
    · right
      unfold cellValues
      exact List.mem_flatten.mpr ⟨row, hrowmem, list_getD_mem _ _ _ hj⟩
    · exact Or.inl (list_getD_oob row _ 0 hj)
  · have hrow : g.getD (npIdx g.length p.1) [] = [] := list_getD_oob g _ [] hi
    rw [hrow]
    exact Or.inl (list_getD_oob [] _ 0 (by simp))

/-- A cell write introduces no value besides the written one. -/
theorem mem_cellValues_setCell (g : Grid) (p : Pos) (v w : Nat)
    (h : w ∈ cellValues (setCell g p v)) : w ∈ cellValues g ∨ w = v := by
  simp only [setCell, cellValues] at h ⊢
  rw [List.mem_flatten] at h
  obtain ⟨row', hrow', hw⟩ := h
  rcases List.mem_or_eq_of_mem_set hrow' with hmem | hset
  · exact Or.inl (List.mem_flatten.mpr ⟨row', hmem, hw⟩)
  · subst hset
    rcases List.mem_or_eq_of_mem_set hw with hmem | hv
    · by_cases hi : npIdx g.length p.1 < g.length
      · refine Or.inl (List.mem_flatten.mpr ⟨_, ?_, hmem⟩)
        rw [List.getD_eq_getElem?_getD, List.getElem?_eq_getElem hi]
        exact List.getElem_mem hi
      · rw [List.getD_eq_getElem?_getD, List.getElem?_eq_none (by omega)] at hmem
        exact absurd hmem (by simp)
    · exact Or.inr hv

/-- The values of a mapped grid are images of the original values. -/
theorem mem_cellValues_mapGrid (g : Grid) (f : Nat → Nat) (w : Nat)
    (h : w ∈ cellValues (mapGrid g f)) : ∃ u ∈ cellValues g, w = f u := by
  simp only [cellValues, mapGrid] at h ⊢
  rw [List.mem_flatten] at h
  obtain ⟨row', hrow', hw⟩ := h
  rw [List.mem_map] at hrow'
  obtain ⟨row, hrow, hmap⟩ := hrow'
  subst hmap
  rw [List.mem_map] at hw
  obtain ⟨u, hu, hfu⟩ := hw
  exact ⟨u, List.mem_flatten.mpr ⟨row, hrow, hu⟩, hfu.symm⟩

/-- The box-placement loop only ever writes target cells (code 2). -/
theorem place_boxes_loop_vals (n : Nat) :
    ∀ (room : Grid) (g : RNG) (w : Nat),
      w ∈ cellValues (place_boxes_loop n room g).1 →
      w ∈ cellValues room ∨ w = 2 := by
  induction n with
  | zero => intro room g w h; exact Or.inl h
  | succ n ih =>
    intro room g w h
    simp only [place_boxes_loop] at h
    rcases ih _ _ _ h with h2 | h2
    · exact mem_cellValues_setCell _ _ _ _ h2
    · exact Or.inr h2

/-- `place_boxes_and_player` only writes player cells (5) and target cells
(2) over the incoming grid. -/
theorem place_vals (room : Grid) (nB : Nat) (sp : Bool) (g : RNG)
    (room' : Grid) (h : (place_boxes_and_player room nB sp g).1 = .ok room') :
    ∀ w ∈ cellValues room', w ∈ cellValues room ∨ w = 2 ∨ w = 5 := by
  intro w hw
  simp only [place_boxes_and_player] at h
  split at h <;> split at h
  · exact absurd h (by simp)
  · simp only at h
    injection h with h
    subst h
    rcases place_boxes_loop_vals _ _ _ _ hw with h2 | h2
    · rcases mem_cellValues_setCell _ _ _ _ h2 with h3 | h3
      · rcases mem_cellValues_setCell _ _ _ _ h3 with h4 | h4
        · exact Or.inl h4
        · exact Or.inr (Or.inr h4)
      · exact Or.inr (Or.inr h3)
    · exact Or.inr (Or.inl h2)
  · exact absurd h (by simp)
  · simp only at h
    injection h with h
    subst h
    rcases place_boxes_loop_vals _ _ _ _ hw with h2 | h2
    · rcases mem_cellValues_setCell _ _ _ _ h2 with h3 | h3
      · exact Or.inl h3
      · exact Or.inr (Or.inr h3)
    · exact Or.inr (Or.inl h2)

/-- One step of the player walk writes only the player code or a value read
from the structure grid. -/
theorem mem_cellValues_playerStep (rs s : Grid) (pos np : Pos) (w : Nat)
    (h : w ∈ cellValues (setCell (setCell s pos (getCell rs pos)) np 5)) :
    w ∈ cellValues s ∨ w ∈ cellValues rs ∨ w = 0 ∨ w = 5 := by
  rcases mem_cellValues_setCell _ _ _ _ h with h2 | h2
  · rcases mem_cellValues_setCell _ _ _ _ h2 with h3 | h3
    · exact Or.inl h3
    · subst h3
      rcases getCell_mem rs pos with h4 | h4
      · exact Or.inr (Or.inr (Or.inl h4))
      · exact Or.inr (Or.inl h4)
  · exact Or.inr (Or.inr (Or.inr h2))

/-- The player walk introduces no cell value beyond the player code, the
out-of-range default and values of the structure grid. -/
theorem movePlayerLoop_vals (rs : Grid) (cp : ℚ) (fuel : Nat) :
    ∀ (s : Grid) (pos : Pos) (prev : List Pos) (g : RNG) (w : Nat),
      w ∈ cellValues (movePlayerLoop rs cp fuel s pos prev g).1 →
      w ∈ cellValues s ∨ w ∈ cellValues rs ∨ w = 0 ∨ w = 5 := by
  induction fuel with
  | zero => intro s pos prev g w h; exact Or.inl h
  | succ fuel ih =>
    intro s pos prev g w h
    simp only [movePlayerLoop] at h
    split at h
    · exact Or.inl h
    · split at h
      · exact mem_cellValues_playerStep rs s pos _ w h
      · split at h
        · exact mem_cellValues_playerStep rs s pos _ w h
        · rcases ih _ _ _ _ _ h with h2 | h2
          · exact mem_cellValues_playerStep rs s pos _ w h2
          · exact Or.inr h2

/-- The whole randomization pass introduces no cell value beyond the
player code, the out-of-range default and structure values. -/
theorem arpm_vals (s rs : Grid) (mp cp : ℚ) (ms : Nat) (g : RNG) (w : Nat)
    (h : w ∈ cellValues (add_random_player_movement s rs mp cp ms g).1) :
    w ∈ cellValues s ∨ w ∈ cellValues rs ∨ w = 0 ∨ w = 5 := by
  simp only [add_random_player_movement] at h
  split at h
  · exact Or.inl h
  · split at h
    · exact Or.inl h
    · exact movePlayerLoop_vals rs cp ms s _ _ _ w h

/-- Neither grid of a completed attempt holds the box-on-target code 3:
the state grid is the search result with 3 recoded to 4, and the structure
grid recodes players over a floor/wall/target alphabet. -/
theorem attemptOnce_no3 (dim : Nat × Nat) (pCh : ℚ) (nS nB : Nat) (sp : Bool)
    (sd : Nat) (g : RNG) (L : LevelData)
    (h : (attemptOnce dim pCh nS nB sp sd g).1 = .ok L) :
    3 ∉ cellValues L.room_structure ∧ 3 ∉ cellValues L.room_state := by
  simp only [attemptOnce] at h
  split at h
  · exact absurd h (by simp)
  · rename_i room heq
    simp only at h
    injection h with h
    subst h
    constructor
    · intro hmem
      obtain ⟨u, hu, hfu⟩ := mem_cellValues_mapGrid _ _ _ hmem
      have hu3 : u = 3 := by
        by_cases h5 : u = 5 <;> simp [h5] at hfu <;> omega
      subst hu3
      rcases place_vals _ _ _ _ _ heq _ hu with h2 | h2 | h2
      · rcases topology_vals dim pCh nS g _ h2 with h3 | h3 <;> omega
      · omega
      · omega
    · intro hmem
      obtain ⟨u, hu, hfu⟩ := mem_cellValues_mapGrid _ _ _ hmem
      by_cases h3 : u = 3 <;> simp [h3] at hfu <;> omega

/-- The acceptance loop returns only levels whose grids avoid code 3. -/
theorem attemptLoop_no3 (dim : Nat × Nat) (pCh : ℚ) (nS nB : Nat) (sp : Bool)
    (sd : Nat) :
    ∀ (tries : Nat) (g : RNG) (L : LevelData),
      (attemptLoop dim pCh nS nB sp sd tries g).1 = .ok L →
      3 ∉ cellValues L.room_structure ∧ 3 ∉ cellValues L.room_state := by
  intro tries
  induction tries with
  | zero => intro g L h; exact absurd h (by simp [attemptLoop])
  | succ t ih =>
    intro g L h
    simp only [attemptLoop] at h
    split at h
    · exact absurd h (by simp)
    · rename_i L1 heq
      split at h
      · simp only at h
        injection h with h
        subst h
        exact attemptOnce_no3 dim pCh nS nB sp sd g L1 heq
      · exact ih _ _ h

/-- C10: every `state_grid` returned by `generate_room` contains no cell
bearing the box-on-target code 3 — after the search all box cells are
rewritten to the plain box code 4 and the player randomizer writes only
the player code or structure values, so a box standing on its target is
encoded identically to one off target, the target being visible only in
`structure_grid`. -/
theorem c10_no_code3 (dim : Nat × Nat) (pCh : ℚ) (nS nB tries : Nat)
    (sp : Bool) (sd : Nat) (g : RNG) (L : LevelData)
    (h : (generate_room dim pCh nS nB tries sp sd g).1 = .ok L) :
    countVal L.room_state 3 = 0 ∧ ∀ q, getCell L.room_state q ≠ 3 := by
  have hno3 : 3 ∉ cellValues L.room_state := by
    simp only [generate_room] at h
    split at h
    · exact absurd h (by simp)
    · rename_i L0 heq
      simp only at h
      injection h with h
      subst h
      intro hmem
      rcases arpm_vals _ _ _ _ _ _ _ hmem with h2 | h2 | h2 | h2
      · exact (attemptLoop_no3 dim pCh nS nB sp sd tries g L0 heq).2 h2
      · exact (attemptLoop_no3 dim pCh nS nB sp sd tries g L0 heq).1 h2
      · omega
      · omega
  refine ⟨countVal_eq_zero _ _ fun w hw hw3 => hno3 (hw3 ▸ hw), fun q hq => ?_⟩
  rcases getCell_mem L.room_state q with h0 | hval
  · omega
  · exact hno3 (hq ▸ hval)

/-- Witness for C10 on the accepted level of the `gWitness` run. -/
theorem c10_witness : countVal C10level.room_state 3 = 0 :=
  (c10_no_code3 (6, 6) 1 2 1 1 false 3 gWitness C10level (by decide)).1

/-! ### Pointwise reads of mapped grids -/

theorem mapGrid_rowD (g : Grid) (f : Nat → Nat) (i : Nat) :
    (mapGrid g f).getD i [] = (g.getD i []).map f := by
  by_cases hi : i < g.length
  · rw [mapGrid, list_getD_eq_getElem _ i _ (by simpa using hi),
      list_getD_eq_getElem g i [] hi, List.getElem_map]
  · rw [list_getD_oob _ _ _ (by simpa [mapGrid] using hi),
      list_getD_oob g i [] hi]
    rfl

theorem inB_mapGrid (g : Grid) (f : Nat → Nat) (q : Pos) :
    inB (mapGrid g f) q ↔ inB g q := by
  unfold inB
  rw [mapGrid_rowD, List.length_map]
  unfold mapGrid
  rw [List.length_map]

theorem list_getD_map (l : List Nat) (f : Nat → Nat) (j : Nat)
    (h : j < l.length) : (l.map f).getD j 0 = f (l.getD j 0) := by
  induction l generalizing j with
  | nil => simp at h
  | cons x xs ih =>
    cases j with
    | zero => rfl
    | succ j =>
      simp only [List.map_cons, List.getD_cons_succ]
      exact ih j (by simpa using h)

theorem getCell_mapGrid (g : Grid) (f : Nat → Nat) (q : Pos) (hq : inB g q) :
    getCell (mapGrid g f) q = f (getCell g q) := by
  have hq' : inB (mapGrid g f) q := (inB_mapGrid g f q).mpr hq
  have hq0 := hq
  obtain ⟨h1, h2, h3, h4⟩ := hq0
  rw [getCell_inB _ _ hq', getCell_inB _ _ hq, mapGrid_rowD]
  exact list_getD_map _ f _ (by omega)

/-! ### Membership in the position-level sets -/

theorem mem_targetCells (g : Grid) (q : Pos) :
    q ∈ targetCells g ↔ inB g q ∧ getCell g q = 2 := by
  unfold targetCells
  rw [List.mem_toFinset, mem_coordsOf]

theorem mem_boxCells (g : Grid) (q : Pos) :
    q ∈ boxCells g ↔ inB g q ∧ (getCell g q = 3 ∨ getCell g q = 4) := by
  unfold boxCells
  rw [List.mem_toFinset, List.mem_append, mem_coordsOf, mem_coordsOf]
  tauto

/-! ### The player of a represented state -/

theorem head_all_eq {α : Type _} (l : List α) (p : α) (hmem : p ∈ l)
    (hall : ∀ x ∈ l, x = p) : l.head? = some p := by
  cases l with
  | nil => cases hmem
  | cons x rest => rw [List.head?_cons, hall x (List.mem_cons_self x rest)]

/-- In a represented state, `np.where(state == 5)` finds exactly the
abstract player. -/
theorem findPlayer_represents (rs s : Grid) (r c : Nat) (a : AbsState)
    (hrs : structWF rs r c) (hshape : gridShape s r c)
    (hrep : represents rs s a) (hwf : absWF rs r c a) :
    findPlayer s = some a.player := by
  obtain ⟨hsr, hvals, hintrs⟩ := hrs
  obtain ⟨hp5, hbox, hoth⟩ := hrep
  obtain ⟨hpint, hpnb, hps, hbwf⟩ := hwf
  unfold findPlayer
  apply head_all_eq
  · rw [mem_coordsOf]
    refine ⟨?_, hp5⟩
    rw [inB_shape s r c hshape]
    obtain ⟨i1, i2, i3, i4⟩ := hpint
    exact ⟨by omega, by omega, by omega, by omega⟩
  · intro q hq
    rw [mem_coordsOf] at hq
    obtain ⟨hqB, hq5⟩ := hq
    by_contra hne
    by_cases hqb : q ∈ a.boxes
    · rcases hbox q hqb with h | h <;> omega
    · have hrsq := hoth q hqB hne hqb
      have hqB' : inB rs q := by
        rw [inB_shape rs r c hsr]
        rw [inB_shape s r c hshape] at hqB
        exact hqB
      rcases hvals q hqB' with h | h | h <;> omega

/-! ### One reverse move at the abstract level -/

/-- A non-effective reverse move returns its input unchanged. -/
theorem stepEffective_false_unchanged (s rs : Grid) (m : Mapping) (lp : Pos)
    (act : Nat) (h : stepEffective s act = false) :
    reverse_move s rs m lp act = (s, m, lp) := by
  unfold stepEffective at h
  unfold reverse_move
  cases hfp : findPlayer s with
  | none => rfl
  | some p =>
    rw [hfp] at h
    simp only [Bool.or_eq_false_iff, decide_eq_false_iff_not] at h
    dsimp only
    rw [if_neg (by tauto)]

/-- Effectiveness is exactly the player's destination being a floor or
empty-target cell. -/
theorem stepEffective_some (s : Grid) (p : Pos) (act : Nat)
    (hfp : findPlayer s = some p) :
    stepEffective s act = true ↔
      (getCell s (p.1 + (changeCoordinates (act % 4)).1,
                  p.2 + (changeCoordinates (act % 4)).2) = 1 ∨
       getCell s (p.1 + (changeCoordinates (act % 4)).1,
                  p.2 + (changeCoordinates (act % 4)).2) = 2) := by
  unfold stepEffective
  rw [hfp]
  simp

theorem invertAct_lt (act : Nat) : invertAct act < 4 := by
  unfold invertAct
  split <;> omega

theorem changeCoordinates_invert (act : Nat) (h : act < 4) :
    changeCoordinates (invertAct act % 4)
      = (-(changeCoordinates (act % 4)).1, -(changeCoordinates (act % 4)).2) := by
  interval_cases act <;> decide

theorem changeCoordinates_abs (act : Nat) (h : act < 4) :
    (changeCoordinates (act % 4)).1.natAbs
      + (changeCoordinates (act % 4)).2.natAbs = 1 := by
  interval_cases act <;> decide

/-- The grid-level effect of one reverse move on a represented state: a
non-effective move is the identity, and an effective move realises the
abstract pull, preserving the representation, the well-formedness of the
abstract state, the shape, and the box count. -/
theorem reverse_move_abs (rs : Grid) (r c : Nat) (hrs : structWF rs r c)
    (s : Grid) (m : Mapping) (lp : Pos) (a : AbsState) (act : Nat)
    (hshape : gridShape s r c) (hrep : represents rs s a)
    (hwf : absWF rs r c a) (hact : act < 4) :
    (stepEffective s act = false → reverse_move s rs m lp act = (s, m, lp)) ∧
    (stepEffective s act = true →
      gridShape (reverse_move s rs m lp act).1 r c ∧
      represents rs (reverse_move s rs m lp act).1 (pullAbs a act) ∧
      absWF rs r c (pullAbs a act) ∧
      (pullAbs a act).boxes.card = a.boxes.card) := by
  refine ⟨stepEffective_false_unchanged s rs m lp act, ?_⟩
  intro heff
  have hfp : findPlayer s = some a.player :=
    findPlayer_represents rs s r c a hrs hshape hrep hwf
  have hnp12 := (stepEffective_some s a.player act hfp).mp heff
  have hccabs := changeCoordinates_abs act hact
  obtain ⟨hsr, hvals, hintrs⟩ := hrs
  obtain ⟨hp5, hbox, hoth⟩ := hrep
  obtain ⟨hpint, hpnb, hps, hbwf⟩ := hwf
  obtain ⟨i1, i2, i3, i4⟩ := id hpint
  obtain ⟨cc, hcc⟩ : ∃ cc, changeCoordinates (act % 4) = cc := ⟨_, rfl⟩
  obtain ⟨np, hnpdef⟩ : ∃ np : Pos,
      (a.player.1 + cc.1, a.player.2 + cc.2) = np := ⟨_, rfl⟩
  obtain ⟨bp, hbpdef⟩ : ∃ bp : Pos,
      (a.player.1 - cc.1, a.player.2 - cc.2) = bp := ⟨_, rfl⟩
  rw [hcc] at hccabs
  rw [hcc, hnpdef] at hnp12
  have hnp1 : np.1 = a.player.1 + cc.1 := by rw [← hnpdef]
  have hnp2 : np.2 = a.player.2 + cc.2 := by rw [← hnpdef]
  have hbp1 : bp.1 = a.player.1 - cc.1 := by rw [← hbpdef]
  have hbp2 : bp.2 = a.player.2 - cc.2 := by rw [← hbpdef]
  have hsB : ∀ q : Pos, 0 ≤ q.1 → q.1 < (r : Int) → 0 ≤ q.2 →
      q.2 < (c : Int) → inB s q :=
    fun q a1 a2 a3 a4 => (inB_shape s r c hshape q).mpr ⟨a1, a2, a3, a4⟩
  have hpB : inB s a.player :=
    hsB _ (by omega) (by omega) (by omega) (by omega)
  have hnpB : inB s np := hsB np (by omega) (by omega) (by omega) (by omega)
  have hbpB : inB s bp := hsB bp (by omega) (by omega) (by omega) (by omega)
  have hBiff : ∀ q : Pos, inB s q ↔ inB rs q := fun q => by
    rw [inB_shape s r c hshape, inB_shape rs r c hsr]
  have hboxB : ∀ b ∈ a.boxes, inB s b := fun b hb => by
    obtain ⟨j1, j2, j3, j4⟩ := (hbwf b hb).1
    exact hsB b (by omega) (by omega) (by omega) (by omega)
  have hnp_ne_p : np ≠ a.player := by
    intro h
    rw [Prod.ext_iff] at h
    omega
  have hbp_ne_p : bp ≠ a.player := by
    intro h
    rw [Prod.ext_iff] at h
    omega
  have hbp_ne_np : bp ≠ np := by
    intro h
    rw [Prod.ext_iff] at h
    omega
  have hnp_nb : np ∉ a.boxes := fun h => by
    rcases hbox np h with h' | h' <;> omega
  have hnp_rs : getCell rs np = getCell s np :=
    (hoth np hnpB hnp_ne_p hnp_nb).symm
  have hnp_int : interiorPos r c np :=
    hintrs np ((hBiff np).mp hnpB) (by omega)
  have hrm : reverse_move s rs m lp act
      = if getCell (setCell (setCell s a.player (getCell rs a.player)) np 5)
            bp = 3
          ∨ getCell (setCell (setCell s a.player (getCell rs a.player)) np 5)
            bp = 4 then
          (setCell (setCell (setCell (setCell s a.player
              (getCell rs a.player)) np 5) a.player 3) bp (getCell rs bp),
           (updateMapping m bp a.player lp).1,
           (updateMapping m bp a.player lp).2)
        else (setCell (setCell s a.player (getCell rs a.player)) np 5, m, lp)
      := by
    unfold reverse_move
    rw [hfp]
    dsimp only
    rw [hcc, hnpdef, hbpdef, if_pos hnp12, if_pos hact]
  have hpull : pullAbs a act = if bp ∈ a.boxes
      then ⟨np, insert a.player (a.boxes.erase bp)⟩ else ⟨np, a.boxes⟩ := by
    unfold pullAbs
    dsimp only
    rw [hcc, hnpdef, hbpdef]
  have hBs1 : ∀ q, inB (setCell s a.player (getCell rs a.player)) q ↔ inB s q :=
    fun q => inB_setCell s a.player q _ hpB
  have hBs2 : ∀ q, inB (setCell (setCell s a.player (getCell rs a.player))
      np 5) q ↔ inB s q :=
    fun q => ((inB_setCell _ np q 5 ((hBs1 np).mpr hnpB)).trans (hBs1 q))
  have hBs3 : ∀ q, inB (setCell (setCell (setCell s a.player
      (getCell rs a.player)) np 5) a.player 3) q ↔ inB s q :=
    fun q => ((inB_setCell _ a.player q 3 ((hBs2 a.player).mpr hpB)).trans
      (hBs2 q))
  have hBs4 : ∀ q, inB (setCell (setCell (setCell (setCell s a.player
      (getCell rs a.player)) np 5) a.player 3) bp (getCell rs bp)) q
      ↔ inB s q :=
    fun q => ((inB_setCell _ bp q _ ((hBs3 bp).mpr hbpB)).trans (hBs3 q))
  have hg2_self : getCell (setCell (setCell s a.player
        (getCell rs a.player)) np 5) np = 5 :=
    getCell_setCell_self _ np 5 ((hBs1 np).mpr hnpB)
  have hg2_other : ∀ q, inB s q → q ≠ np → q ≠ a.player →
      getCell (setCell (setCell s a.player (getCell rs a.player)) np 5) q
        = getCell s q := by
    intro q hq hqnp hqp
    rw [getCell_setCell_ne _ np q 5 ((hBs1 np).mpr hnpB) ((hBs1 q).mpr hq)
        (fun h => hqnp h.symm),
      getCell_setCell_ne s a.player q _ hpB hq (fun h => hqp h.symm)]
  have hbp_s2 : getCell (setCell (setCell s a.player
        (getCell rs a.player)) np 5) bp = getCell s bp :=
    hg2_other bp hbpB hbp_ne_np hbp_ne_p
  have hbpmem : (getCell s bp = 3 ∨ getCell s bp = 4) ↔ bp ∈ a.boxes := by
    constructor
    · intro h
      by_contra hnb
      have hco := hoth bp hbpB hbp_ne_p hnb
      rcases hvals bp ((hBiff bp).mp hbpB) with h' | h' | h' <;> omega
    · exact hbox bp
  by_cases hbpbox : bp ∈ a.boxes
  · have hcell : getCell (setCell (setCell s a.player
          (getCell rs a.player)) np 5) bp = 3
        ∨ getCell (setCell (setCell s a.player
          (getCell rs a.player)) np 5) bp = 4 := by
      rw [hbp_s2]
      exact hbpmem.mpr hbpbox
    have hcard : (insert a.player (a.boxes.erase bp)).card = a.boxes.card := by
      have hpe : a.player ∉ a.boxes.erase bp :=
        fun h => hpnb (Finset.mem_of_mem_erase h)
      have hpos : 0 < a.boxes.card := Finset.card_pos.mpr ⟨bp, hbpbox⟩
      rw [Finset.card_insert_of_not_mem hpe, Finset.card_erase_of_mem hbpbox]
      omega
    have hg4_np : getCell (setCell (setCell (setCell (setCell s a.player
        (getCell rs a.player)) np 5) a.player 3) bp (getCell rs bp)) np
        = 5 := by
      rw [getCell_setCell_ne _ bp np _ ((hBs3 bp).mpr hbpB)
          ((hBs3 np).mpr hnpB) hbp_ne_np,
        getCell_setCell_ne _ a.player np 3 ((hBs2 a.player).mpr hpB)
          ((hBs2 np).mpr hnpB) (fun h => hnp_ne_p h.symm), hg2_self]
    have hg4_p : getCell (setCell (setCell (setCell (setCell s a.player
        (getCell rs a.player)) np 5) a.player 3) bp (getCell rs bp)) a.player
        = 3 := by
      rw [getCell_setCell_ne _ bp a.player _ ((hBs3 bp).mpr hbpB)
          ((hBs3 a.player).mpr hpB) hbp_ne_p,
        getCell_setCell_self _ a.player 3 ((hBs2 a.player).mpr hpB)]
    have hg4_bp : getCell (setCell (setCell (setCell (setCell s a.player
        (getCell rs a.player)) np 5) a.player 3) bp (getCell rs bp)) bp
        = getCell rs bp :=
      getCell_setCell_self _ bp _ ((hBs3 bp).mpr hbpB)
    have hg4_other : ∀ q, inB s q → q ≠ np → q ≠ a.player → q ≠ bp →
        getCell (setCell (setCell (setCell (setCell s a.player
          (getCell rs a.player)) np 5) a.player 3) bp (getCell rs bp)) q
          = getCell s q := by
      intro q hq hqnp hqp hqbp
      rw [getCell_setCell_ne _ bp q _ ((hBs3 bp).mpr hbpB) ((hBs3 q).mpr hq)
          (fun h => hqbp h.symm),
        getCell_setCell_ne _ a.player q 3 ((hBs2 a.player).mpr hpB)
          ((hBs2 q).mpr hq) (fun h => hqp h.symm),
        hg2_other q hq hqnp hqp]
    simp only [hrm, if_pos hcell, hpull, if_pos hbpbox]
    refine ⟨?_, ⟨?_, ?_, ?_⟩, ⟨?_, ?_, ?_, ?_⟩, hcard⟩
    · exact setCell_shape _ _ _ _ _ (setCell_shape _ _ _ _ _
        (setCell_shape _ _ _ _ _ (setCell_shape _ _ _ _ _ hshape)))
    · exact hg4_np
    · intro b hb
      rcases Finset.mem_insert.mp hb with hbp' | hbe
      · subst hbp'
        exact Or.inl hg4_p
      · have hbb : b ∈ a.boxes := Finset.mem_of_mem_erase hbe
        have hbne : b ≠ bp := (Finset.mem_erase.mp hbe).1
        have hbnp : b ≠ np := fun h => hnp_nb (h ▸ hbb)
        have hbpl : b ≠ a.player := fun h => hpnb (h ▸ hbb)
        rw [hg4_other b (hboxB b hbb) hbnp hbpl hbne]
        exact hbox b hbb
    · intro q hq hqnp hqi
      have hqB : inB s q := (hBs4 q).mp hq
      have hqp : q ≠ a.player := fun h => hqi (h ▸ Finset.mem_insert_self _ _)
      by_cases hqbp : q = bp
      · subst hqbp
        exact hg4_bp
      · have hqnb : q ∉ a.boxes := fun h =>
          hqi (Finset.mem_insert.mpr (Or.inr (Finset.mem_erase.mpr ⟨hqbp, h⟩)))
        rw [hg4_other q hqB hqnp hqp hqbp]
        exact hoth q hqB hqp hqnb
    · exact hnp_int
    · intro h
      rcases Finset.mem_insert.mp h with h' | h'
      · exact hnp_ne_p h'
      · exact hnp_nb (Finset.mem_of_mem_erase h')
    · rw [hnp_rs]
      exact hnp12
    · intro b hb
      rcases Finset.mem_insert.mp hb with hbp' | hbe
      · subst hbp'
        exact ⟨hpint, hps⟩
      · exact hbwf b (Finset.mem_of_mem_erase hbe)
  · have hcell : ¬ (getCell (setCell (setCell s a.player
          (getCell rs a.player)) np 5) bp = 3
        ∨ getCell (setCell (setCell s a.player
          (getCell rs a.player)) np 5) bp = 4) := by
      rw [hbp_s2]
      exact fun h => hbpbox (hbpmem.mp h)
    simp only [hrm, if_neg hcell, hpull, if_neg hbpbox]
    refine ⟨?_, ⟨?_, ?_, ?_⟩, ⟨?_, ?_, ?_, ?_⟩, by trivial⟩
    · exact setCell_shape _ _ _ _ _ (setCell_shape _ _ _ _ _ hshape)
    · exact hg2_self
    · intro b hb
      have hbnp : b ≠ np := fun h => hnp_nb (h ▸ hb)
      have hbpl : b ≠ a.player := fun h => hpnb (h ▸ hb)
      rw [hg2_other b (hboxB b hb) hbnp hbpl]
      exact hbox b hb
    · intro q hq hqnp hqnb
      have hqB : inB s q := (hBs2 q).mp hq
      by_cases hqp : q = a.player
      · subst hqp
        rw [getCell_setCell_ne _ np a.player 5 ((hBs1 np).mpr hnpB)
            ((hBs1 a.player).mpr hpB) hnp_ne_p,
          getCell_setCell_self s a.player _ hpB]
      · rw [hg2_other q hqB hqnp hqp]
        exact hoth q hqB hqp hqnb
    · exact hnp_int
    · exact hnp_nb
    · rw [hnp_rs]
      exact hnp12
    · exact hbwf

/-! ### The forward push undoes the pull -/

/-- A forward push never changes the number of boxes. -/
theorem pushAbs_card (rs : Grid) (a : AbsState) (act : Nat) :
    (pushAbs rs a act).boxes.card = a.boxes.card := by
  unfold pushAbs
  dsimp only
  split
  · rename_i hnp
    split
    · rename_i hcond
      dsimp only
      rw [Finset.card_insert_of_not_mem
          (fun h => hcond.2 (Finset.mem_of_mem_erase h)),
        Finset.card_erase_of_mem hnp]
      have hpos : 0 < a.boxes.card := Finset.card_pos.mpr ⟨_, hnp⟩
      omega
    · rfl
  · split
    · rfl
    · rfl

/-- Pushing back in the opposite direction undoes an abstract pull. -/
theorem pushAbs_pullAbs (rs : Grid) (r c : Nat) (a : AbsState) (act : Nat)
    (hact : act < 4) (hwf : absWF rs r c a) :
    pushAbs rs (pullAbs a act) (invertAct act) = a := by
  obtain ⟨hpint, hpnb, hps, hbwf⟩ := hwf
  obtain ⟨cc, hcc⟩ : ∃ cc, changeCoordinates (act % 4) = cc := ⟨_, rfl⟩
  have hinv : changeCoordinates (invertAct act % 4) = (-cc.1, -cc.2) := by
    rw [changeCoordinates_invert act hact, hcc]
  have hpull : pullAbs a act
      = if (a.player.1 - cc.1, a.player.2 - cc.2) ∈ a.boxes
        then ⟨(a.player.1 + cc.1, a.player.2 + cc.2),
              insert a.player
                (a.boxes.erase (a.player.1 - cc.1, a.player.2 - cc.2))⟩
        else ⟨(a.player.1 + cc.1, a.player.2 + cc.2), a.boxes⟩ := by
    unfold pullAbs
    dsimp only
    rw [hcc]
  have e1 : (a.player.1 + cc.1 + -cc.1, a.player.2 + cc.2 + -cc.2)
      = a.player := by
    rw [Prod.ext_iff]
    dsimp only
    constructor <;> ring
  have e2 : (a.player.1 + cc.1 + -cc.1 + -cc.1,
        a.player.2 + cc.2 + -cc.2 + -cc.2)
      = (a.player.1 - cc.1, a.player.2 - cc.2) := by
    rw [Prod.ext_iff]
    dsimp only
    constructor <;> ring
  by_cases hbp : (a.player.1 - cc.1, a.player.2 - cc.2) ∈ a.boxes
  · rw [hpull, if_pos hbp]
    unfold pushAbs
    dsimp only
    rw [hinv]
    dsimp only
    rw [e1]
    have hpe : a.player
        ∉ a.boxes.erase (a.player.1 - cc.1, a.player.2 - cc.2) :=
      fun h => hpnb (Finset.mem_of_mem_erase h)
    rw [if_pos (Finset.mem_insert_self _ _)]
    rw [e2, if_pos ⟨(hbwf _ hbp).2, fun h => by
      rcases Finset.mem_insert.mp h with h' | h'
      · exact hpnb (h' ▸ hbp)
      · exact Finset.not_mem_erase _ _ h'⟩]
    rw [Finset.erase_insert hpe, Finset.insert_erase hbp]
  · rw [hpull, if_neg hbp]
    unfold pushAbs
    dsimp only
    rw [hinv]
    dsimp only
    rw [e1, if_neg hpnb, if_pos ⟨hps, hpnb⟩]

/-! ### Replaying whole reverse chains -/

theorem runRev_append (rs : Grid) (t : Grid × Mapping × Pos)
    (l1 l2 : List Nat) :
    runRev rs t (l1 ++ l2) = runRev rs (runRev rs t l1) l2 := by
  induction l1 generalizing t with
  | nil => rfl
  | cons x xs ih =>
    obtain ⟨s, m, lp⟩ := t
    simp only [List.cons_append, runRev]
    exact ih _

theorem effChain_append (rs : Grid) (t : Grid × Mapping × Pos)
    (l1 l2 : List Nat) :
    effChain rs t (l1 ++ l2)
      = (effChain rs t l1 && effChain rs (runRev rs t l1) l2) := by
  induction l1 generalizing t with
  | nil => simp [effChain, runRev]
  | cons x xs ih =>
    obtain ⟨s, m, lp⟩ := t
    simp only [List.cons_append, effChain, runRev, List.append_eq, ih,
      Bool.and_assoc]

/-- Running a chain of in-range reverse moves from a represented state
lands in a represented state with the same box count; when every move of
the chain is effective, replaying the forward-equivalent sequence from
the final abstract state recovers the initial abstract state. -/
theorem runRev_abs (rs : Grid) (r c : Nat) (hrs : structWF rs r c) :
    ∀ (acts : List Nat) (s : Grid) (m : Mapping) (lp : Pos) (a : AbsState),
      gridShape s r c → represents rs s a → absWF rs r c a →
      (∀ x ∈ acts, x < 4) →
      ∃ a', gridShape (runRev rs (s, m, lp) acts).1 r c ∧
        represents rs (runRev rs (s, m, lp) acts).1 a' ∧
        absWF rs r c a' ∧ a'.boxes.card = a.boxes.card ∧
        (effChain rs (s, m, lp) acts = true →
          forwardReplay rs a' acts = a) := by
  intro acts
  induction acts with
  | nil =>
    intro s m lp a hs hrep hwf _
    exact ⟨a, hs, hrep, hwf, rfl, fun _ => rfl⟩
  | cons act rest ih =>
    intro s m lp a hs hrep hwf hlt
    have hact : act < 4 := hlt act (List.mem_cons_self _ _)
    have hstep := reverse_move_abs rs r c hrs s m lp a act hs hrep hwf hact
    by_cases heff : stepEffective s act = true
    · obtain ⟨hsh', hrep', hwf', hcard'⟩ := hstep.2 heff
      obtain ⟨a', g1, g2, g3, g4, g5⟩ := ih (reverse_move s rs m lp act).1
        (reverse_move s rs m lp act).2.1 (reverse_move s rs m lp act).2.2
        (pullAbs a act) hsh' hrep' hwf'
        (fun x hx => hlt x (List.mem_cons_of_mem _ hx))
      refine ⟨a', g1, g2, g3, by rw [g4, hcard'], ?_⟩
      intro hch
      have hch' : effChain rs (reverse_move s rs m lp act) rest = true := by
        simp only [effChain, Bool.and_eq_true] at hch
        exact hch.2
      have hrest := g5 hch'
      unfold forwardReplay forwardEquivalent
      rw [List.reverse_cons, List.map_append, List.foldl_append]
      unfold forwardReplay forwardEquivalent at hrest
      rw [hrest]
      simp only [List.map_cons, List.map_nil, List.foldl_cons, List.foldl_nil]
      exact pushAbs_pullAbs rs r c a act hact hwf
    · have heq := hstep.1 (by revert heff; cases stepEffective s act <;> simp)
      have hrun : runRev rs (s, m, lp) (act :: rest)
          = runRev rs (s, m, lp) rest := by
        show runRev rs (reverse_move s rs m lp act) rest = _
        rw [heq]
      obtain ⟨a', g1, g2, g3, g4, g5⟩ := ih s m lp a hs hrep hwf
        (fun x hx => hlt x (List.mem_cons_of_mem _ hx))
      rw [hrun]
      refine ⟨a', g1, g2, g3, g4, ?_⟩
      intro hch
      simp only [effChain, Bool.and_eq_true] at hch
      exact absurd hch.1 heff

/-! ### The search's best state is reached by an effective chain -/

/-- The explored set only grows during the search. -/
theorem dfs_explored_mono (rs : Grid) :
    ∀ (ttl : Nat) (s : Grid) (m : Mapping) (sw : Nat) (lp : Pos)
      (acts : List Nat) (ctx : SearchCtx) (x : Grid),
      x ∈ ctx.explored →
      x ∈ (depth_first_search rs ttl s m sw lp acts ctx).explored := by
  intro ttl
  induction ttl with
  | zero => intro s m sw lp acts ctx x hx; exact hx
  | succ ttl ih =>
    intro s m sw lp acts ctx x hx
    simp only [depth_first_search]
    split
    · exact hx
    · split
      · exact hx
      · apply ih
        apply ih
        apply ih
        apply ih
        rw [visitCtx_explored]
        exact List.mem_cons_of_mem _ hx

/-- `visitCtx` preserves the chain invariant when the expanded state is
itself chain-reachable. -/
theorem visitCtx_BestInv (rs : Grid) (init : Grid × Mapping × Pos)
    (ctx : SearchCtx) (s : Grid) (m : Mapping) (sw : Nat) (acts : List Nat)
    (hbi : BestInv rs init ctx)
    (hrun : (runRev rs init acts).1 = s)
    (hch : effChain rs init acts = true)
    (hlt : ∀ x ∈ acts, x < 4) :
    BestInv rs init (visitCtx ctx s m sw acts) := by
  rcases visitCtx_best ctx s m sw acts with ⟨hb, _, ha⟩ | ⟨hb, _, ha⟩
  · exact ⟨by rw [ha, hb, hrun], by rw [ha]; exact hch, by rw [ha]; exact hlt⟩
  · exact ⟨by rw [ha, hb]; exact hbi.1, by rw [ha]; exact hbi.2.1,
      by rw [ha]; exact hbi.2.2⟩

/-- Through any number of expansions, the best state remains reachable
from the initial triple by an effective chain of in-range reverse moves
recorded in `bestActions`: every state the search expands is itself
reachable (a pruned duplicate is cut before scoring), and the best slot
only ever takes such states. -/
theorem dfs_best_reachable (rs : Grid) (init : Grid × Mapping × Pos) :
    ∀ (ttl : Nat) (s : Grid) (m : Mapping) (sw : Nat) (lp : Pos)
      (acts : List Nat) (ctx : SearchCtx),
      runRev rs init acts = (s, m, lp) →
      (∀ x ∈ acts, x < 4) →
      (effChain rs init acts = true ∨ s ∈ ctx.explored) →
      BestInv rs init ctx →
      BestInv rs init (depth_first_search rs ttl s m sw lp acts ctx) := by
  intro ttl
  induction ttl with
  | zero => intro s m sw lp acts ctx _ _ _ hbi; exact hbi
  | succ ttl ih =>
    intro s m sw lp acts ctx hrun hlt hreach hbi
    simp only [depth_first_search]
    split
    · exact hbi
    · split
      · exact hbi
      · rename_i hnotmem
        have hch : effChain rs init acts = true := by
          rcases hreach with h | h
          · exact h
          · exact absurd h hnotmem
        have hbi2 : BestInv rs init (visitCtx ctx s m sw acts) :=
          visitCtx_BestInv rs init ctx s m sw acts hbi
            (by rw [hrun]) hch hlt
        have hsmem : s ∈ (visitCtx ctx s m sw acts).explored := by
          rw [visitCtx_explored]
          exact List.mem_cons_self _ _
        have hchild : ∀ (a : Nat), a < 4 →
            runRev rs init (acts ++ [a])
              = reverse_move s rs m lp a := by
          intro a _
          rw [runRev_append, hrun]
          rfl
        have hlt' : ∀ (a : Nat), a < 4 → ∀ x ∈ acts ++ [a], x < 4 := by
          intro a ha x hx
          rcases List.mem_append.mp hx with h | h
          · exact hlt x h
          · rw [List.mem_singleton.mp h]
            exact ha
        have hreach' : ∀ (a : Nat) (C : SearchCtx),
            s ∈ C.explored →
            effChain rs init (acts ++ [a]) = true
              ∨ (reverse_move s rs m lp a).1 ∈ C.explored := by
          intro a C hsC
          by_cases heff : stepEffective s a = true
          · left
            rw [effChain_append, hrun]
            simp only [effChain, Bool.and_eq_true]
            exact ⟨hch, heff, trivial⟩
          · right
            rw [stepEffective_false_unchanged s rs m lp a
              (by revert heff; cases stepEffective s a <;> simp)]
            exact hsC
        apply ih _ _ _ _ _ _ (hchild 3 (by omega)) (hlt' 3 (by omega))
          (hreach' 3 _ (dfs_explored_mono rs _ _ _ _ _ _ _ _
            (dfs_explored_mono rs _ _ _ _ _ _ _ _
              (dfs_explored_mono rs _ _ _ _ _ _ _ _ hsmem))))
        apply ih _ _ _ _ _ _ (hchild 2 (by omega)) (hlt' 2 (by omega))
          (hreach' 2 _ (dfs_explored_mono rs _ _ _ _ _ _ _ _
            (dfs_explored_mono rs _ _ _ _ _ _ _ _ hsmem)))
        apply ih _ _ _ _ _ _ (hchild 1 (by omega)) (hlt' 1 (by omega))
          (hreach' 1 _ (dfs_explored_mono rs _ _ _ _ _ _ _ _ hsmem))
        exact ih _ _ _ _ _ _ (hchild 0 (by omega)) (hlt' 0 (by omega))
          (hreach' 0 _ hsmem) hbi2

/-! ### Well-formedness of the placed level -/

/-- The outer ring of the generated topology is walled. -/
theorem topology_borderZero (dim : Nat × Nat) (pCh : ℚ) (nS : Nat) (g : RNG) :
    borderZero (room_topology_generation dim pCh nS g).1 dim.1 dim.2 := by
  intro q hq hnint
  have hsh := topology_shape dim pCh nS g
  have hq' := (inB_shape _ _ _ hsh q).mp hq
  obtain ⟨hq1, hq2, hq3, hq4⟩ := hq'
  obtain ⟨hshl, hshr⟩ := hsh
  have hb1 : q.1.toNat < (room_topology_generation dim pCh nS g).1.length := by
    omega
  rw [getCell_inB _ _ hq]
  rw [list_getD_eq_getElem _ q.1.toNat [] hb1]
  rw [list_getD_eq_getElem _ q.2.toNat 0 (by rw [hshr _ hb1]; omega)]
  simp only [room_topology_generation, List.getElem_mapIdx]
  rw [if_pos]
  unfold interiorPos at hnint
  omega

/-- The box loop turns only floor cells into targets, pointwise. -/
theorem place_boxes_loop_changed (r c : Nat) :
    ∀ (n : Nat) (room : Grid) (g : RNG),
      gridShape room r c → n ≤ countVal room 1 →
      ∀ q : Pos, inB room q →
        getCell (place_boxes_loop n room g).1 q = getCell room q ∨
        (getCell room q = 1 ∧ getCell (place_boxes_loop n room g).1 q = 2) := by
  intro n
  induction n with
  | zero => intro room g hs hn q hq; exact Or.inl rfl
  | succ k ih =>
    intro room g hs hn q hq
    simp only [place_boxes_loop]
    have hlen : 0 < (coordsOf room 1).length := by
      rw [coordsOf_length]
      omega
    have hind : (drawNat g (coordsOf room 1).length).1
        < (coordsOf room 1).length := Nat.mod_lt _ hlen
    obtain ⟨hinB, hval⟩ := coordsOf_getD_spec room 1 _ hind
    have h1 := countVal_setCell_drop room _ 2 1 hinB hval (by omega)
    have hs' := setCell_shape room
      ((coordsOf room 1).getD (drawNat g (coordsOf room 1).length).1 (0, 0))
      2 r c hs
    have hq' : inB (setCell room
        ((coordsOf room 1).getD (drawNat g (coordsOf room 1).length).1 (0, 0))
        2) q := (inB_setCell _ _ _ _ hinB).mpr hq
    rcases ih _ (drawNat g (coordsOf room 1).length).2 hs' (by omega) q hq'
      with h | h
    · by_cases hqp : q = (coordsOf room 1).getD
          (drawNat g (coordsOf room 1).length).1 (0, 0)
      · subst hqp
        rw [getCell_setCell_self room _ 2 hinB] at h
        exact Or.inr ⟨hval, h⟩
      · rw [getCell_setCell_ne room _ q 2 hinB hq
          (fun hh => hqp hh.symm)] at h
        exact Or.inl h
    · obtain ⟨ha, hb⟩ := h
      by_cases hqp : q = (coordsOf room 1).getD
          (drawNat g (coordsOf room 1).length).1 (0, 0)
      · subst hqp
        exact Or.inr ⟨hval, hb⟩
      · rw [getCell_setCell_ne room _ q 2 hinB hq
          (fun hh => hqp hh.symm)] at ha
        exact Or.inr ⟨ha, hb⟩

/-- Single-player placement, pointwise: an unchanged cell keeps its
topology value; a changed cell was a floor cell and now carries a target
or the player. -/
theorem place_changed (room : Grid) (nB : Nat) (g : RNG) (r c : Nat)
    (hs : gridShape room r c) (room' : Grid)
    (h : (place_boxes_and_player room nB false g).1 = .ok room') :
    ∀ q : Pos, inB room q →
      getCell room' q = getCell room q ∨
      (getCell room q = 1 ∧ (getCell room' q = 2 ∨ getCell room' q = 5)) := by
  intro q hq
  simp only [place_boxes_and_player, Bool.false_eq_true, if_false] at h
  split at h
  · exact absurd h (by simp)
  · rename_i hguard
    rw [coordsOf_length] at hguard
    simp only at h
    injection h with h
    subst h
    have hlen : 0 < (coordsOf room 1).length := by
      rw [coordsOf_length]
      omega
    have hind : (drawNat g (coordsOf room 1).length).1
        < (coordsOf room 1).length := Nat.mod_lt _ hlen
    obtain ⟨hinB, hval⟩ := coordsOf_getD_spec room 1 _ hind
    have h1 := countVal_setCell_drop room _ 5 1 hinB hval (by omega)
    have hs' := setCell_shape room
      ((coordsOf room 1).getD (drawNat g (coordsOf room 1).length).1 (0, 0))
      5 r c hs
    have hq' : inB (setCell room
        ((coordsOf room 1).getD (drawNat g (coordsOf room 1).length).1 (0, 0))
        5) q := (inB_setCell _ _ _ _ hinB).mpr hq
    rcases place_boxes_loop_changed r c nB _
        (drawNat g (coordsOf room 1).length).2 hs' (by omega) q hq'
      with h2 | h2
    · by_cases hqp : q = (coordsOf room 1).getD
          (drawNat g (coordsOf room 1).length).1 (0, 0)
      · subst hqp
        rw [getCell_setCell_self room _ 5 hinB] at h2
        exact Or.inr ⟨hval, Or.inr h2⟩
      · rw [getCell_setCell_ne room _ q 5 hinB hq
          (fun hh => hqp hh.symm)] at h2
        exact Or.inl h2
    · obtain ⟨ha, hb⟩ := h2
      by_cases hqp : q = (coordsOf room 1).getD
          (drawNat g (coordsOf room 1).length).1 (0, 0)
      · subst hqp
        rw [getCell_setCell_self room _ 5 hinB] at ha
        omega
      · rw [getCell_setCell_ne room _ q 5 hinB hq
          (fun hh => hqp hh.symm)] at ha
        exact Or.inr ⟨ha, Or.inl hb⟩

/-- A single-player attempt accepted by the generation loop is solvable
from its pre-randomization state: replaying the forward-equivalent of the
recorded action sequence from the abstraction of the state grid puts the
box set exactly onto the target set of the structure grid, and the box
count equals the target count. -/
theorem attemptOnce_solvable (dim : Nat × Nat) (pCh : ℚ) (nS nB sd : Nat)
    (g : RNG) (L : LevelData)
    (h : (attemptOnce dim pCh nS nB false sd g).1 = .ok L) :
    (forwardReplay L.room_structure (absOf L.room_state)
        L.action_sequence).boxes = targetCells L.room_structure ∧
    (absOf L.room_state).boxes.card = (targetCells L.room_structure).card
    := by
  simp only [attemptOnce] at h
  split at h
  · exact absurd h (by simp)
  · rename_i room heq
    simp only at h
    injection h with h
    subst h
    dsimp only
    obtain ⟨topo, htopo⟩ : ∃ t, room_topology_generation dim pCh nS g = t :=
      ⟨_, rfl⟩
    rw [htopo] at heq
    have hshtopo : gridShape topo.1 dim.1 dim.2 := by
      rw [← htopo]
      exact topology_shape dim pCh nS g
    have hvalstopo : ∀ w ∈ cellValues topo.1, w = 0 ∨ w = 1 := by
      rw [← htopo]
      exact topology_vals dim pCh nS g
    have hbz : borderZero topo.1 dim.1 dim.2 := by
      rw [← htopo]
      exact topology_borderZero dim pCh nS g
    obtain ⟨hc2, hc5f, hc5t, hshroom⟩ :=
      place_spec topo.1 nB false topo.2 dim.1 dim.2 hshtopo hvalstopo room heq
    have hc5 : countVal room 5 = 1 := hc5f rfl
    have hchg := place_changed topo.1 nB topo.2 dim.1 dim.2 hshtopo room heq
    have hBroom : ∀ q : Pos, inB room q ↔ inB topo.1 q := fun q => by
      rw [inB_shape room dim.1 dim.2 hshroom,
        inB_shape topo.1 dim.1 dim.2 hshtopo]
    have htopoq : ∀ q : Pos, getCell topo.1 q = 0 ∨ getCell topo.1 q = 1 := by
      intro q
      rcases getCell_mem topo.1 q with h0 | hv
      · exact Or.inl h0
      · exact hvalstopo _ hv
    have hroomvals : ∀ q : Pos, inB room q →
        getCell room q = 0 ∨ getCell room q = 1 ∨ getCell room q = 2
          ∨ getCell room q = 5 := by
      intro q hq
      rcases hchg q ((hBroom q).mp hq) with h | ⟨h1, h2⟩
      · rcases htopoq q with h' | h' <;> omega
      · rcases h2 with h' | h' <;> omega
    have hintroom : ∀ q : Pos, inB room q →
        getCell room q = 1 ∨ getCell room q = 2 ∨ getCell room q = 5 →
        interiorPos dim.1 dim.2 q := by
      intro q hq hval
      by_contra hni
      have htq := hbz q ((hBroom q).mp hq) hni
      rcases hchg q ((hBroom q).mp hq) with h | ⟨h1, h2⟩ <;> omega
    have hlen5 : (coordsOf room 5).length = 1 := by
      rw [coordsOf_length]
      exact hc5
    obtain ⟨p, hp⟩ := List.length_eq_one.mp hlen5
    have hpmem : inB room p ∧ getCell room p = 5 :=
      (mem_coordsOf room 5 p).mp (by rw [hp]; exact List.mem_cons_self _ _)
    have huniq : ∀ q : Pos, inB room q → getCell room q = 5 → q = p := by
      intro q hq hv
      have hqmem : q ∈ coordsOf room 5 := (mem_coordsOf room 5 q).mpr ⟨hq, hv⟩
      rw [hp] at hqmem
      simpa using hqmem
    obtain ⟨rs, hrs⟩ :
        ∃ t, (mapGrid room fun v => if v = 5 then 1 else v) = t := ⟨_, rfl⟩
    obtain ⟨st0, hst0⟩ :
        ∃ t, (mapGrid room fun v => if v = 2 then 4 else v) = t := ⟨_, rfl⟩
    have hshrs : gridShape rs dim.1 dim.2 := by
      rw [← hrs]
      exact mapGrid_shape room _ dim.1 dim.2 hshroom
    have hshst0 : gridShape st0 dim.1 dim.2 := by
      rw [← hst0]
      exact mapGrid_shape room _ dim.1 dim.2 hshroom
    have hBrs : ∀ q : Pos, inB rs q ↔ inB room q := fun q => by
      rw [← hrs]
      exact inB_mapGrid room _ q
    have hBst0 : ∀ q : Pos, inB st0 q ↔ inB room q := fun q => by
      rw [← hst0]
      exact inB_mapGrid room _ q
    have hgetrs : ∀ q : Pos, inB room q →
        getCell rs q = if getCell room q = 5 then 1 else getCell room q :=
      fun q hq => by rw [← hrs]; exact getCell_mapGrid room _ q hq
    have hgetst0 : ∀ q : Pos, inB room q →
        getCell st0 q = if getCell room q = 2 then 4 else getCell room q :=
      fun q hq => by rw [← hst0]; exact getCell_mapGrid room _ q hq
    have hsw : structWF rs dim.1 dim.2 := by
      refine ⟨hshrs, ?_, ?_⟩
      · intro q hq
        have hq' : inB room q := (hBrs q).mp hq
        rw [hgetrs q hq']
        rcases hroomvals q hq' with h | h | h | h <;> simp [h]
      · intro q hq h12
        have hq' : inB room q := (hBrs q).mp hq
        rw [hgetrs q hq'] at h12
        apply hintroom q hq'
        by_cases h5 : getCell room q = 5
        · exact Or.inr (Or.inr h5)
        · rw [if_neg h5] at h12
          omega
    have hroomtarget : ∀ b, b ∈ targetCells rs →
        inB room b ∧ getCell room b = 2 := by
      intro b hb
      obtain ⟨hbB, hb2⟩ := (mem_targetCells rs b).mp hb
      have hbB' : inB room b := (hBrs b).mp hbB
      refine ⟨hbB', ?_⟩
      rw [hgetrs b hbB'] at hb2
      by_cases h5 : getCell room b = 5
      · rw [if_pos h5] at hb2
        omega
      · rw [if_neg h5] at hb2
        exact hb2
    have hrep0 : represents rs st0 ⟨p, targetCells rs⟩ := by
      refine ⟨?_, ?_, ?_⟩
      · rw [hgetst0 p hpmem.1, hpmem.2]
        rfl
      · intro b hb
        obtain ⟨hbB', hbroom⟩ := hroomtarget b hb
        right
        rw [hgetst0 b hbB', hbroom]
        simp
      · intro q hq hqp hqt
        have hq' : inB room q := (hBst0 q).mp hq
        have hq5 : getCell room q ≠ 5 := fun hh => hqp (huniq q hq' hh)
        have hq2 : getCell room q ≠ 2 := by
          intro h2
          apply hqt
          rw [mem_targetCells]
          refine ⟨(hBrs q).mpr hq', ?_⟩
          rw [hgetrs q hq', if_neg hq5]
          exact h2
        rw [hgetst0 q hq', if_neg hq2, hgetrs q hq', if_neg hq5]
    have hwf0 : absWF rs dim.1 dim.2 ⟨p, targetCells rs⟩ := by
      refine ⟨?_, ?_, ?_, ?_⟩
      · exact hintroom p hpmem.1 (Or.inr (Or.inr hpmem.2))
      · intro hmem
        obtain ⟨_, hbroom⟩ := hroomtarget p hmem
        omega
      · left
        rw [hgetrs p hpmem.1, if_pos hpmem.2]
      · intro b hb
        obtain ⟨hbB', hbroom⟩ := hroomtarget b hb
        exact ⟨hintroom b hbB' (Or.inr (Or.inl hbroom)),
          Or.inr ((mem_targetCells rs b).mp hb).2⟩
    obtain ⟨ctx, hctx⟩ : ∃ t, reverse_playingCtx st0 rs sd = t := ⟨_, rfl⟩
    have hbi0 : BestInv rs
        (st0, (coordsOf rs 2).map fun t => (t, t), (-1, -1))
        ⟨[], -1, st0, (coordsOf rs 2).map fun t => (t, t), [],
          (coordsOf rs 2).length, []⟩ :=
      ⟨rfl, rfl, by simp⟩
    have hbest : BestInv rs
        (st0, (coordsOf rs 2).map fun t => (t, t), (-1, -1)) ctx := by
      rw [← hctx]
      unfold reverse_playingCtx
      exact dfs_best_reachable rs _ sd st0 _ 0 (-1, -1) [] _ rfl (by simp)
        (Or.inl rfl) hbi0
    obtain ⟨a', g1, g2, g3, g4, g5⟩ := runRev_abs rs dim.1 dim.2 hsw
      ctx.bestActions st0 ((coordsOf rs 2).map fun t => (t, t)) (-1, -1)
      ⟨p, targetCells rs⟩ hshst0 hrep0 hwf0 hbest.2.2
    rw [hbest.1] at g1 g2
    have hfr : forwardReplay rs a' ctx.bestActions = ⟨p, targetCells rs⟩ :=
      g5 hbest.2.1
    obtain ⟨hp5', hbox', hoth'⟩ := id g2
    obtain ⟨hpint', hpnb', hps', hbwf'⟩ := id g3
    obtain ⟨st1, hst1⟩ :
        ∃ t, (mapGrid ctx.bestRoom fun v => if v = 3 then 4 else v) = t :=
      ⟨_, rfl⟩
    have hshst1 : gridShape st1 dim.1 dim.2 := by
      rw [← hst1]
      exact mapGrid_shape _ _ _ _ g1
    have hBst1 : ∀ q : Pos, inB st1 q ↔ inB ctx.bestRoom q := fun q => by
      rw [← hst1]
      exact inB_mapGrid _ _ q
    have hgetst1 : ∀ q : Pos, inB ctx.bestRoom q →
        getCell st1 q
          = if getCell ctx.bestRoom q = 3 then 4 else getCell ctx.bestRoom q :=
      fun q hq => by rw [← hst1]; exact getCell_mapGrid _ _ q hq
    have hBbrs : ∀ q : Pos, inB ctx.bestRoom q ↔ inB rs q := fun q => by
      rw [inB_shape _ _ _ g1, inB_shape rs _ _ hshrs]
    have hpB' : inB ctx.bestRoom a'.player := by
      rw [inB_shape _ _ _ g1]
      obtain ⟨i1, i2, i3, i4⟩ := id hpint'
      exact ⟨by omega, by omega, by omega, by omega⟩
    have hboxB' : ∀ b ∈ a'.boxes, inB ctx.bestRoom b := by
      intro b hb
      rw [inB_shape _ _ _ g1]
      obtain ⟨i1, i2, i3, i4⟩ := (hbwf' b hb).1
      exact ⟨by omega, by omega, by omega, by omega⟩
    have hrep1 : represents rs st1 a' := by
      refine ⟨?_, ?_, ?_⟩
      · rw [hgetst1 _ hpB', hp5']
        rfl
      · intro b hb
        rw [hgetst1 b (hboxB' b hb)]
        rcases hbox' b hb with hh | hh <;> rw [hh] <;> simp
      · intro q hq hqp hqb
        have hqB : inB ctx.bestRoom q := (hBst1 q).mp hq
        have hco := hoth' q hqB hqp hqb
        have hq3 : getCell rs q ≠ 3 := by
          rcases hsw.2.1 q ((hBbrs q).mp hqB) with hh | hh | hh <;> omega
        rw [hgetst1 q hqB, hco, if_neg hq3]
    have hfp1 : findPlayer st1 = some a'.player :=
      findPlayer_represents rs st1 dim.1 dim.2 a' hsw hshst1 hrep1 g3
    have hbc1 : boxCells st1 = a'.boxes := by
      apply Finset.ext
      intro q
      rw [mem_boxCells]
      constructor
      · rintro ⟨hqB, hq34⟩
        by_contra hqb
        by_cases hqp : q = a'.player
        · subst hqp
          rw [hrep1.1] at hq34
          omega
        · have hco := hrep1.2.2 q hqB hqp hqb
          rcases hsw.2.1 q ((hBbrs q).mp ((hBst1 q).mp hqB)) with hh | hh | hh
            <;> omega
      · intro hb
        refine ⟨(hBst1 q).mpr (hboxB' q hb), hrep1.2.1 q hb⟩
    have habs : absOf st1 = a' := by
      unfold absOf
      rw [hfp1, hbc1]
      rfl
    have hrp : reverse_playing st0 rs sd
        = (ctx.bestRoom, ctx.bestMapping, ctx.bestActions) := by
      unfold reverse_playing
      rw [hctx]
    rw [hrs, hst0, hrp]
    dsimp only
    rw [hst1, habs, hfr]
    exact ⟨rfl, by rw [g4]⟩

/-- Solvability propagates through the acceptance loop. -/
theorem attemptLoop_solvable (dim : Nat × Nat) (pCh : ℚ) (nS nB sd : Nat) :
    ∀ (tries : Nat) (g : RNG) (L : LevelData),
      (attemptLoop dim pCh nS nB false sd tries g).1 = .ok L →
      (forwardReplay L.room_structure (absOf L.room_state)
          L.action_sequence).boxes = targetCells L.room_structure ∧
      (absOf L.room_state).boxes.card = (targetCells L.room_structure).card
      := by
  intro tries
  induction tries with
  | zero => intro g L h; exact absurd h (by simp [attemptLoop])
  | succ t ih =>
    intro g L h
    simp only [attemptLoop] at h
    split at h
    · exact absurd h (by simp)
    · rename_i L1 heq
      split at h
      · simp only at h
        injection h with h
        subst h
        exact attemptOnce_solvable dim pCh nS nB sd g L1 heq
      · exact ih _ _ h

/-! ### Claim C1 -/

/-- C1, counterexample: a level actually returned by `generate_room` whose
forward replay fails.  The claim replays from the *returned* `state_grid`,
but `add_random_player_movement` moves the player after the action
sequence is fixed: on the `gWitness` run the randomizer shifts the player
off the replay's starting cell, and the replayed pushes no longer bring
the box home. -/
theorem c1_counterexample :
    (generate_room (6, 6) 1 2 1 1 false 3 gWitness).1 = .ok C10level ∧
    ¬ (forwardReplay C10level.room_structure (absOf C10level.room_state)
        C10level.action_sequence).boxes
      = targetCells C10level.room_structure :=
  ⟨by decide, by decide⟩

/-- C1 (amended): for every single-player level accepted by the generation
loop — the level as it stands *before* `add_random_player_movement`
relocates the player — replaying the forward-equivalent of the returned
`action_sequence` (the sequence reversed, each pull translated to its
push) from the abstraction of the state grid ends with the box set
exactly on the home-target set of the structure grid; the box count
equals the target count, and every forward push preserves the box
count, so it is the same throughout the replay. -/
theorem c1_forward_replay (dim : Nat × Nat) (pCh : ℚ) (nS nB sd tries : Nat)
    (g : RNG) (L : LevelData)
    (h : (attemptLoop dim pCh nS nB false sd tries g).1 = .ok L) :
    (forwardReplay L.room_structure (absOf L.room_state)
        L.action_sequence).boxes = targetCells L.room_structure ∧
    (absOf L.room_state).boxes.card = (targetCells L.room_structure).card ∧
    ∀ (a : AbsState) (act : Nat),
      (pushAbs L.room_structure a act).boxes.card = a.boxes.card := by
  obtain ⟨h1, h2⟩ := attemptLoop_solvable dim pCh nS nB sd tries g L h
  exact ⟨h1, h2, fun a act => pushAbs_card L.room_structure a act⟩

/-- Witness for C1's amended theorem on the accepted level of the
`gWitness` run, before its player randomization. -/
theorem c1_witness :
    (forwardReplay C1level.room_structure (absOf C1level.room_state)
        C1level.action_sequence).boxes = targetCells C1level.room_structure ∧
    (absOf C1level.room_state).boxes.card
      = (targetCells C1level.room_structure).card ∧
    ∀ (a : AbsState) (act : Nat),
      (pushAbs C1level.room_structure a act).boxes.card = a.boxes.card :=
  c1_forward_replay (6, 6) 1 2 1 3 1 gWitness C1level (by decide)

end Sokoban
